import Mathlib

set_option maxRecDepth 100000

/-!
Verification development for the `bem` crate: a parser for a small
line-oriented notation describing a UI block with modifiers and elements
(src/parser.rs, src/models.rs) and a JSON codec for the resulting data
model (src/lib.rs).

The data model is embedded verbatim from `src/models.rs`.  The parser in
`src/parser.rs` delegates the lexical work to a pest grammar file
(`grammar/bem.pest`) that is not part of the source tree here, so the
recognizer is modelled from the spec's grammar (spec section 4.1) and the
model-building walk follows `parse`/`parse_part` in `src/parser.rs`.
The JSON codec delegates to `serde_json`; its behaviour (compact output,
declaration-order fields, derive-style field visitor on deserialization)
is embedded explicitly below.
-/

/-- Data model: `BEMElement` from src/models.rs — a named sub-part of a
block with its own ordered modifier list. -/
structure BEMElement where
  name : String
  modifiers : List String
deriving DecidableEq

/-- Data model: `BEMBlock` from src/models.rs — the top-level component:
a name, an ordered modifier list and an ordered element list. -/
structure BEMBlock where
  name : String
  modifiers : List String
  elements : List BEMElement
deriving DecidableEq

/-- Modelled from the spec: the identifier alphabet of grammar rule
`identifier = (alnum | '-')+` (spec 4.1); the pest file `grammar/bem.pest`
itself is not in the source tree. -/
def isIdentChar (c : Char) : Bool :=
  c.isAlphanum || c = '-'

/-- Modelled from the spec: the whitespace permitted around a modifier
inside a bracketed list (`modifier = ws* identifier ws*`, spec 4.1);
covers space, tab, newline and carriage return. -/
def isWsChar (c : Char) : Bool :=
  c = ' ' || c = '\t' || c = '\n' || c = '\r'

def skipWs (cs : List Char) : List Char :=
  cs.dropWhile isWsChar

/-- Recognize one `identifier` token: the longest nonempty prefix of
identifier characters, returning it together with the unconsumed input. -/
def parseIdent (cs : List Char) : Option (String × List Char) :=
  let tok := cs.takeWhile isIdentChar
  if tok.isEmpty then none
  else some (String.mk tok, cs.dropWhile isIdentChar)

/-- Recognize one `modifier = ws* identifier ws*` (spec 4.1). -/
def parseModifier (cs : List Char) : Option (String × List Char) :=
  match parseIdent (skipWs cs) with
  | none => none
  | some (m, rest) => some (m, skipWs rest)

/-- Recognize the continuation `(',' modifier)* ','? ']'` of a modifier
list, with `acc` holding the modifiers read so far in reverse.  The fuel
argument only serves termination; `parse` supplies input length + 1. -/
def parseModTail (fuel : Nat) (acc : List String) (cs : List Char) :
    Option (List String × List Char) :=
  match fuel with
  | 0 => none
  | fuel + 1 =>
    match cs with
    | [] => none
    | c :: rest =>
      if c = ']' then some (acc.reverse, rest)
      else if c = ',' then
        match rest with
        | [] => none
        | c2 :: rest2 =>
          if c2 = ']' then some (acc.reverse, rest2)
          else
            match parseModifier (c2 :: rest2) with
            | none => none
            | some (m, rest') => parseModTail fuel (m :: acc) rest'
      else none

/-- Recognize a `modifier-list` body after its opening bracket:
`modifier (',' modifier)* ','? ']' | ']'` (spec 4.1). -/
def parseModList (fuel : Nat) (cs : List Char) :
    Option (List String × List Char) :=
  match cs with
  | [] => none
  | c :: rest =>
    if c = ']' then some ([], rest)
    else
      match parseModifier (c :: rest) with
      | none => none
      | some (m, rest') => parseModTail fuel [m] rest'

/-- Recognize a `line-body = identifier modifier-list?` (spec 4.1),
yielding the name, the modifier list (empty when absent) and the rest of
the input.  This is the shape `parse_part` in src/parser.rs extracts from
a matched `block` or `element` pair. -/
def parseLineBody (fuel : Nat) (cs : List Char) :
    Option (String × List String × List Char) :=
  match parseIdent cs with
  | none => none
  | some (n, rest) =>
    match rest with
    | [] => some (n, [], [])
    | c :: rest' =>
      if c = '[' then
        match parseModList fuel rest' with
        | none => none
        | some (ms, rest2) => some (n, ms, rest2)
      else some (n, [], c :: rest')

/-- Recognize the document tail `(newline+ element-line)* newline* EOF`
(spec 4.1), building the element list in source order exactly as the
`Rule::element` arm of `parse` in src/parser.rs pushes one `BEMElement`
per matched element pair. -/
def parseElems (fuel : Nat) (cs : List Char) : Option (List BEMElement) :=
  match fuel with
  | 0 => none
  | fuel + 1 =>
    match cs with
    | [] => some []
    | c :: rest =>
      if c = '\n' then
        let rest' := rest.dropWhile (fun x => x = '\n')
        if rest'.isEmpty then some []
        else
          match parseLineBody fuel rest' with
          | none => none
          | some (n, ms, rest2) =>
            match parseElems fuel rest2 with
            | none => none
            | some es => some (BEMElement.mk n ms :: es)
      else none

/-- Embedding of `parse` from src/parser.rs: run the grammar
(`document = block-line (newline+ element-line)* newline* EOF`) and build
the `BEMBlock` whose name and modifiers come from the first line and whose
elements come from the following non-blank lines in source order.  Any
input the grammar rejects yields an error value and no partial result. -/
def parse (s : String) : Except String BEMBlock :=
  let cs := s.data
  let fuel := cs.length + 1
  match parseLineBody fuel cs with
  | none => .error "Pest parsing error"
  | some (n, ms, rest) =>
    match parseElems fuel rest with
    | none => .error "Pest parsing error"
    | some es => .ok (BEMBlock.mk n ms es)

/-- Generic JSON values, used to state what text the serializer renders
and to model `serde_json`'s parsing stage inside `from_json`.  Object
member lists are ordered, so a `Json.obj` value records the exact field
order of the underlying text.  Number values keep their validated lexeme
(the codec under verification never inspects numeric values: they can
only appear inside ignored unknown fields). -/
inductive Json where
  | null : Json
  | bool : Bool → Json
  | num : String → Json
  | str : String → Json
  | arr : List Json → Json
  | obj : List (String × Json) → Json

/-- Lowercase hexadecimal digit, as `serde_json` uses for control-char
escapes. -/
def hexDigit (n : Nat) : Char :=
  if n < 10 then Char.ofNat (48 + n) else Char.ofNat (87 + n)

/-- Escaping of one character inside a JSON string, exactly as
`serde_json`'s compact serializer emits it: `"` and `\` are escaped,
control characters use the short escapes `\b \t \n \f \r` when available
and `\u00XX` otherwise, and every other character is passed through. -/
def escapeChar (c : Char) : List Char :=
  if c = '"' then ['\\', '"']
  else if c = '\\' then ['\\', '\\']
  else if c = '\x08' then ['\\', 'b']
  else if c = '\t' then ['\\', 't']
  else if c = '\n' then ['\\', 'n']
  else if c = '\x0c' then ['\\', 'f']
  else if c = '\r' then ['\\', 'r']
  else if c.toNat < 32 then
    ['\\', 'u', '0', '0', hexDigit (c.toNat / 16), hexDigit (c.toNat % 16)]
  else [c]

/-- Render a JSON string literal (quotes plus escaped body). -/
def encodeString (s : String) : String :=
  "\"" ++ String.mk (s.data.map escapeChar).flatten ++ "\""

/-- Comma-join a list of already rendered pieces (compact form, no
whitespace, as `serde_json::to_string` produces). -/
def joinComma : List String → String
  | [] => ""
  | [x] => x
  | x :: xs => x ++ "," ++ joinComma xs

/-- Render an array of strings. -/
def encodeStrList (ms : List String) : String :=
  "[" ++ joinComma (ms.map encodeString) ++ "]"

/-- Render one element object with the derived field order of
`BEMElement` in src/models.rs: `name` then `modifiers`. -/
def encodeElement (e : BEMElement) : String :=
  "\x7b\"name\":" ++ encodeString e.name ++
    ",\"modifiers\":" ++ encodeStrList e.modifiers ++ "\x7d"

/-- Render one block object with the derived field order of `BEMBlock`
in src/models.rs: `name`, then `modifiers`, then `elements`. -/
def encodeBlock (b : BEMBlock) : String :=
  "\x7b\"name\":" ++ encodeString b.name ++
    ",\"modifiers\":" ++ encodeStrList b.modifiers ++
    ",\"elements\":[" ++ joinComma (b.elements.map encodeElement) ++ "]\x7d"

/-- Embedding of `to_json` from src/lib.rs.  The Rust function returns
`Result<String, serde_json::Error>`; for `BEMBlock` (strings and vectors
only, with infallible `Serialize` implementations) `serde_json::to_string`
cannot fail, so the embedding always returns the rendered text in the
`ok` constructor. -/
def to_json (b : BEMBlock) : Except String String :=
  .ok (encodeBlock b)

/-- Whitespace accepted between JSON tokens (JSON spec, honoured by
`serde_json`). -/
def isJWs (c : Char) : Bool :=
  c = ' ' || c = '\t' || c = '\n' || c = '\r'

def skipJWs (cs : List Char) : List Char :=
  cs.dropWhile isJWs

/-- Value of one hexadecimal digit, for `\uXXXX` escapes. -/
def hexVal (c : Char) : Option Nat :=
  if 48 ≤ c.toNat ∧ c.toNat ≤ 57 then some (c.toNat - 48)
  else if 97 ≤ c.toNat ∧ c.toNat ≤ 102 then some (c.toNat - 87)
  else if 65 ≤ c.toNat ∧ c.toNat ≤ 70 then some (c.toNat - 55)
  else none

/-- Decoding of a single-character JSON escape. -/
def unescapeChar (c : Char) : Option Char :=
  if c = '"' then some '"'
  else if c = '\\' then some '\\'
  else if c = '/' then some '/'
  else if c = 'b' then some '\x08'
  else if c = 'f' then some '\x0c'
  else if c = 'n' then some '\n'
  else if c = 'r' then some '\r'
  else if c = 't' then some '\t'
  else none

/-- Parse the body of a JSON string after its opening quote, decoding
escapes and rejecting raw control characters, as `serde_json` does.
Escapes in the surrogate range `\uD800`-`\uDFFF` (supplementary-plane
pairs) are not modelled; the codec under verification never emits them. -/
def parseStrChars : List Char → Option (List Char × List Char)
  | [] => none
  | c :: cs =>
    if c = '"' then some ([], cs)
    else if c = '\\' then
      match cs with
      | 'u' :: h1 :: h2 :: h3 :: h4 :: cs' =>
        match hexVal h1, hexVal h2, hexVal h3, hexVal h4 with
        | some a, some b, some c3, some d =>
          let n := ((a * 16 + b) * 16 + c3) * 16 + d
          if n < 55296 ∨ 57344 ≤ n then
            match parseStrChars cs' with
            | some (s, r) => some (Char.ofNat n :: s, r)
            | none => none
          else none
        | _, _, _, _ => none
      | e :: cs' =>
        match unescapeChar e with
        | some c' =>
          match parseStrChars cs' with
          | some (s, r) => some (c' :: s, r)
          | none => none
        | none => none
      | [] => none
    else if c.toNat < 32 then none
    else
      match parseStrChars cs with
      | some (s, r) => some (c :: s, r)
      | none => none

/-- Lex the integer part of a JSON number (`0` or a nonzero digit
followed by digits). -/
def parseIntPart : List Char → Option (List Char × List Char)
  | [] => none
  | c :: cs =>
    if c = '0' then some (['0'], cs)
    else if c.isDigit then
      some (c :: cs.takeWhile Char.isDigit, cs.dropWhile Char.isDigit)
    else none

/-- Lex one JSON number (`-`? int frac? exp?), returning its lexeme. -/
def parseNumber (cs : List Char) : Option (List Char × List Char) :=
  let (neg, cs1) :=
    match cs with
    | '-' :: r => (['-'], r)
    | _ => ([], cs)
  match parseIntPart cs1 with
  | none => none
  | some (ip, cs2) =>
    let fracRes : Option (List Char × List Char) :=
      match cs2 with
      | '.' :: r =>
        let ds := r.takeWhile Char.isDigit
        if ds.isEmpty then none else some ('.' :: ds, r.dropWhile Char.isDigit)
      | _ => some ([], cs2)
    match fracRes with
    | none => none
    | some (fp, cs3) =>
      let expRes : Option (List Char × List Char) :=
        match cs3 with
        | e :: r =>
          if e = 'e' ∨ e = 'E' then
            let (sgn, r1) :=
              match r with
              | '+' :: r' => (['+'], r')
              | '-' :: r' => (['-'], r')
              | _ => ([], r)
            let ds := r1.takeWhile Char.isDigit
            if ds.isEmpty then none
            else some (e :: (sgn ++ ds), r1.dropWhile Char.isDigit)
          else some ([], cs3)
        | [] => some ([], cs3)
      match expRes with
      | none => none
      | some (ep, cs4) => some (neg ++ ip ++ fp ++ ep, cs4)

mutual

/-- Parse one JSON value.  The fuel argument only serves termination;
`parseJsonText` supplies input length + 1, which bounds the number of
parser steps since every step consumes at least one character. -/
def parseValue : Nat → List Char → Option (Json × List Char)
  | 0, _ => none
  | f + 1, cs =>
    match cs with
    | [] => none
    | c :: rest =>
      if c = '"' then
        match parseStrChars rest with
        | some (s, r) => some (.str (String.mk s), r)
        | none => none
      else if c = '\x7b' then parseObjBody f (skipJWs rest)
      else if c = '[' then parseArrBody f (skipJWs rest)
      else if c = 't' then
        match rest with
        | 'r' :: 'u' :: 'e' :: r => some (.bool true, r)
        | _ => none
      else if c = 'f' then
        match rest with
        | 'a' :: 'l' :: 's' :: 'e' :: r => some (.bool false, r)
        | _ => none
      else if c = 'n' then
        match rest with
        | 'u' :: 'l' :: 'l' :: r => some (.null, r)
        | _ => none
      else
        match parseNumber (c :: rest) with
        | some (lex, r) => some (.num (String.mk lex), r)
        | none => none

/-- Parse an object body after the opening brace and any whitespace. -/
def parseObjBody : Nat → List Char → Option (Json × List Char)
  | 0, _ => none
  | f + 1, cs =>
    match cs with
    | [] => none
    | c :: rest =>
      if c = '\x7d' then some (.obj [], rest)
      else if c = '"' then
        match parseStrChars rest with
        | none => none
        | some (k, r) =>
          match skipJWs r with
          | ':' :: r2 =>
            match parseValue f (skipJWs r2) with
            | none => none
            | some (v, r3) => parseObjTail f [(String.mk k, v)] (skipJWs r3)
          | _ => none
      else none

/-- Parse the continuation of an object after one member, with `acc`
holding the members read so far in reverse. -/
def parseObjTail : Nat → List (String × Json) → List Char → Option (Json × List Char)
  | 0, _, _ => none
  | f + 1, acc, cs =>
    match cs with
    | [] => none
    | c :: rest =>
      if c = '\x7d' then some (.obj acc.reverse, rest)
      else if c = ',' then
        match skipJWs rest with
        | '"' :: r =>
          match parseStrChars r with
          | none => none
          | some (k, r1) =>
            match skipJWs r1 with
            | ':' :: r2 =>
              match parseValue f (skipJWs r2) with
              | none => none
              | some (v, r3) => parseObjTail f ((String.mk k, v) :: acc) (skipJWs r3)
            | _ => none
        | _ => none
      else none

/-- Parse an array body after the opening bracket and any whitespace. -/
def parseArrBody : Nat → List Char → Option (Json × List Char)
  | 0, _ => none
  | f + 1, cs =>
    match cs with
    | [] => none
    | c :: rest =>
      if c = ']' then some (.arr [], rest)
      else
        match parseValue f (c :: rest) with
        | none => none
        | some (v, r) => parseArrTail f [v] (skipJWs r)

/-- Parse the continuation of an array after one item, with `acc`
holding the items read so far in reverse. -/
def parseArrTail : Nat → List Json → List Char → Option (Json × List Char)
  | 0, _, _ => none
  | f + 1, acc, cs =>
    match cs with
    | [] => none
    | c :: rest =>
      if c = ']' then some (.arr acc.reverse, rest)
      else if c = ',' then
        match parseValue f (skipJWs rest) with
        | none => none
        | some (v, r) => parseArrTail f (v :: acc) (skipJWs r)
      else none

end

/-- Parse a complete JSON text: one value surrounded by optional
whitespace, with nothing after it — the orchestration
`serde_json::from_str` performs before handing values to the derived
visitors. -/
def parseJsonText (s : String) : Except String Json :=
  match parseValue (s.data.length + 1) (skipJWs s.data) with
  | none => .error "JSON syntax error"
  | some (v, rest) =>
    match skipJWs rest with
    | [] => .ok v
    | _ => .error "trailing characters"

/-- Deserialize a JSON value as a `String` field, as the derived
`Deserialize` does: only a JSON string is accepted. -/
def strFromJson : Json → Except String String
  | .str s => .ok s
  | _ => .error "invalid type: expected a string"

/-- Deserialize a list of JSON values as `Vec<String>` entries. -/
def strListAux : List Json → Except String (List String)
  | [] => .ok []
  | v :: vs =>
    match strFromJson v with
    | .error e => .error e
    | .ok s =>
      match strListAux vs with
      | .error e => .error e
      | .ok ss => .ok (s :: ss)

/-- Deserialize a JSON value as `Vec<String>`. -/
def strListFromJson : Json → Except String (List String)
  | .arr vs => strListAux vs
  | _ => .error "invalid type: expected an array"

/-- Field visitor for `BEMElement`, mirroring the derived `Deserialize`
implementation: walk the members in document order, fill the known
fields, reject duplicates, ignore unknown fields, and report the first
missing required field (in declaration order) at the end. -/
def elemFromKvs : List (String × Json) → Option String → Option (List String) →
    Except String BEMElement
  | [], nameOpt, modsOpt =>
    match nameOpt with
    | none => .error "missing field `name`"
    | some n =>
      match modsOpt with
      | none => .error "missing field `modifiers`"
      | some ms => .ok (BEMElement.mk n ms)
  | (k, v) :: kvs, nameOpt, modsOpt =>
    if k = "name" then
      match nameOpt with
      | some _ => .error "duplicate field `name`"
      | none =>
        match strFromJson v with
        | .error e => .error e
        | .ok s => elemFromKvs kvs (some s) modsOpt
    else if k = "modifiers" then
      match modsOpt with
      | some _ => .error "duplicate field `modifiers`"
      | none =>
        match strListFromJson v with
        | .error e => .error e
        | .ok ms => elemFromKvs kvs nameOpt (some ms)
    else elemFromKvs kvs nameOpt modsOpt

/-- Deserialize a JSON value as a `BEMElement`. -/
def elemFromJson : Json → Except String BEMElement
  | .obj kvs => elemFromKvs kvs none none
  | _ => .error "invalid type: expected struct BEMElement"

/-- Deserialize a list of JSON values as `Vec<BEMElement>` entries. -/
def elemListAux : List Json → Except String (List BEMElement)
  | [] => .ok []
  | v :: vs =>
    match elemFromJson v with
    | .error e => .error e
    | .ok x =>
      match elemListAux vs with
      | .error e => .error e
      | .ok xs => .ok (x :: xs)

/-- Deserialize a JSON value as `Vec<BEMElement>`. -/
def elemListFromJson : Json → Except String (List BEMElement)
  | .arr vs => elemListAux vs
  | _ => .error "invalid type: expected an array"

/-- Field visitor for `BEMBlock`, mirroring the derived `Deserialize`
implementation (same discipline as `elemFromKvs`). -/
def blockFromKvs : List (String × Json) → Option String → Option (List String) →
    Option (List BEMElement) → Except String BEMBlock
  | [], nameOpt, modsOpt, elemsOpt =>
    match nameOpt with
    | none => .error "missing field `name`"
    | some n =>
      match modsOpt with
      | none => .error "missing field `modifiers`"
      | some ms =>
        match elemsOpt with
        | none => .error "missing field `elements`"
        | some es => .ok (BEMBlock.mk n ms es)
  | (k, v) :: kvs, nameOpt, modsOpt, elemsOpt =>
    if k = "name" then
      match nameOpt with
      | some _ => .error "duplicate field `name`"
      | none =>
        match strFromJson v with
        | .error e => .error e
        | .ok s => blockFromKvs kvs (some s) modsOpt elemsOpt
    else if k = "modifiers" then
      match modsOpt with
      | some _ => .error "duplicate field `modifiers`"
      | none =>
        match strListFromJson v with
        | .error e => .error e
        | .ok ms => blockFromKvs kvs nameOpt (some ms) elemsOpt
    else if k = "elements" then
      match elemsOpt with
      | some _ => .error "duplicate field `elements`"
      | none =>
        match elemListFromJson v with
        | .error e => .error e
        | .ok es => blockFromKvs kvs nameOpt modsOpt (some es)
    else blockFromKvs kvs nameOpt modsOpt elemsOpt

/-- Embedding of `from_json` from src/lib.rs: parse the JSON text
(`serde_json::from_str`) and run the derived field visitor for
`BEMBlock` over the resulting object. -/
def from_json (s : String) : Except String BEMBlock :=
  match parseJsonText s with
  | .error e => .error e
  | .ok j =>
    match j with
    | .obj kvs => blockFromKvs kvs none none none
    | _ => .error "invalid type: expected struct BEMBlock"

/-- Modelled from the spec: the JSON shape section 4.3 prescribes for one
element — an object with the fields `name` then `modifiers`, in that
order. -/
def jsonOfElement (e : BEMElement) : Json :=
  .obj [("name", .str e.name), ("modifiers", .arr (e.modifiers.map .str))]

/-- Modelled from the spec: the JSON shape section 4.3 prescribes for a
block — a single object with the fields `name` (string), `modifiers`
(array of strings in model order) and `elements` (array of element
objects), in exactly that order with no other fields. -/
def jsonOfBlock (b : BEMBlock) : Json :=
  .obj [("name", .str b.name),
        ("modifiers", .arr (b.modifiers.map .str)),
        ("elements", .arr (b.elements.map jsonOfElement))]

/-- Name invariant of the data model (spec section 3): a nonempty string
of identifier characters. -/
def nameOkB (s : String) : Bool :=
  !s.data.isEmpty && s.data.all isIdentChar

/-- Model invariants claimed for constructed values (spec section 3):
every name matches the identifier grammar and no modifier list contains
an empty string. -/
def blockInvariantB (b : BEMBlock) : Bool :=
  nameOkB b.name &&
    b.modifiers.all (fun m => !m.data.isEmpty) &&
    b.elements.all (fun e =>
      nameOkB e.name && e.modifiers.all (fun m => !m.data.isEmpty))

/-- Validity of one rendered line: the name and every modifier are
identifiers. -/
def validLineB (p : String × List String) : Bool :=
  nameOkB p.1 && p.2.all nameOkB

/-- Render a comma-separated modifier list (characters). -/
def renderModsChars : List String → List Char
  | [] => []
  | [m] => m.data
  | m :: ms => m.data ++ ',' :: renderModsChars ms

/-- Render one document line: a name, followed by a bracketed modifier
list when modifiers are present. -/
def renderLineChars (p : String × List String) : List Char :=
  p.1.data ++ (match p.2 with
    | [] => []
    | _ => '[' :: renderModsChars p.2 ++ [']'])

/-- Render the element lines of a document, each preceded by one
newline. -/
def renderRestChars : List (String × List String) → List Char
  | [] => []
  | e :: es => '\n' :: renderLineChars e ++ renderRestChars es

/-- Render a whole document: the block line, the element lines and `k`
trailing newlines. -/
def renderDocChars (b : String × List String) (es : List (String × List String))
    (k : Nat) : List Char :=
  renderLineChars b ++ renderRestChars es ++ List.replicate k '\n'

/-- Head condition on the unconsumed input: empty, or starting with a
character the predicate rejects. -/
def headNotP (p : Char → Bool) : List Char → Prop
  | [] => True
  | c :: _ => p c = false

/-- Rendering of the continuation of a modifier list (one leading comma
per modifier). -/
def renderTailChars : List String → List Char
  | [] => []
  | m :: ms => ',' :: m.data ++ renderTailChars ms

/-- Fuel consumed by `parseElems` on a rendered element list: one unit
per element plus one per modifier. -/
def elemsNeed : List (String × List String) → Nat
  | [] => 0
  | e :: es => e.2.length + 1 + elemsNeed es

/-- Continuation form of `joinComma`: every piece preceded by a comma. -/
def joinCommaTail : List String → String
  | [] => ""
  | x :: xs => "," ++ x ++ joinCommaTail xs

/-- Fuel consumed by the JSON value parser on a rendered element list. -/
def elemsCost : List BEMElement → Nat
  | [] => 0
  | e :: es => e.modifiers.length + 6 + elemsCost es

example :
    from_json "\x7b\"name\":\"media-player\",\"modifiers\":[\"dark\"],\"elements\":[\x7b\"name\":\"button\",\"modifiers\":[\"fast-forward\",\"rewind\"]\x7d,\x7b\"name\":\"timeline\",\"modifiers\":[]\x7d]\x7d" =
    .ok (BEMBlock.mk "media-player" ["dark"]
      [BEMElement.mk "button" ["fast-forward", "rewind"],
       BEMElement.mk "timeline" []]) := rfl

example :
    to_json (BEMBlock.mk "media-player" ["dark"]
      [BEMElement.mk "button" ["fast-forward", "rewind"],
       BEMElement.mk "timeline" []]) =
    .ok "\x7b\"name\":\"media-player\",\"modifiers\":[\"dark\"],\"elements\":[\x7b\"name\":\"button\",\"modifiers\":[\"fast-forward\",\"rewind\"]\x7d,\x7b\"name\":\"timeline\",\"modifiers\":[]\x7d]\x7d" := rfl

example :
    parseJsonText (encodeBlock (BEMBlock.mk "a" ["b"] [BEMElement.mk "c" []])) =
    .ok (jsonOfBlock (BEMBlock.mk "a" ["b"] [BEMElement.mk "c" []])) := rfl

example : from_json "\x7b\"modifiers\":[],\"elements\":[]\x7d" = .error "missing field `name`" := rfl

example : from_json "\x7b\"name\":\"a\",\"extra\":[1.5e3,null,true,\"x\"],\"modifiers\":[],\"elements\":[]\x7d" =
    .ok (BEMBlock.mk "a" [] []) := rfl

example : from_json "\x7b" = .error "JSON syntax error" := rfl

example : from_json "\x7b\"name\":\"\",\"modifiers\":[\"\"],\"elements\":[]\x7d" =
    .ok (BEMBlock.mk "" [""] []) := rfl

example : parse "foo" = .ok (BEMBlock.mk "foo" [] []) := rfl
example : parse "foo[bar,baz]" = .ok (BEMBlock.mk "foo" ["bar", "baz"] []) := rfl
example : parse "foo[bar,baz,]" = .ok (BEMBlock.mk "foo" ["bar", "baz"] []) := rfl
example : parse "foo[ bar , baz ]" = .ok (BEMBlock.mk "foo" ["bar", "baz"] []) := rfl
example : parse "foo[\n\tbar,\n\tbaz]" = .ok (BEMBlock.mk "foo" ["bar", "baz"] []) := rfl
example : parse "foo\nbar[\n\tbaz,\n\tqux]" =
    .ok (BEMBlock.mk "foo" [] [BEMElement.mk "bar" ["baz", "qux"]]) := rfl
example : parse "foo\nbar\nbaz\nqux" =
    .ok (BEMBlock.mk "foo" []
      [BEMElement.mk "bar" [], BEMElement.mk "baz" [], BEMElement.mk "qux" []]) := rfl
example : parse "foo\n\n\n" = .ok (BEMBlock.mk "foo" [] []) := rfl
example : parse "foo(bar)" = .error "Pest parsing error" := rfl
example : parse "a[b,c]\nd[e,f]\ng\nh[i]" =
    .ok (BEMBlock.mk "a" ["b", "c"]
      [BEMElement.mk "d" ["e", "f"], BEMElement.mk "g" [], BEMElement.mk "h" ["i"]]) := rfl

theorem takeWhile_append_of_all {p : Char → Bool} :
    ∀ (l rest : List Char), (∀ c ∈ l, p c = true) → headNotP p rest →
      (l ++ rest).takeWhile p = l := by
  intro l
  induction l with
  | nil =>
    intro rest _ hr
    cases rest with
    | nil => rfl
    | cons c cs => simp [List.takeWhile_cons, headNotP] at hr ⊢; simp [hr]
  | cons c l ih =>
    intro rest hl hr
    have hc : p c = true := hl c (by simp)
    simp only [List.cons_append, List.takeWhile_cons, hc, if_true]
    rw [ih rest (fun x hx => hl x (by simp [hx])) hr]

theorem dropWhile_append_of_all {p : Char → Bool} :
    ∀ (l rest : List Char), (∀ c ∈ l, p c = true) → headNotP p rest →
      (l ++ rest).dropWhile p = rest := by
  intro l
  induction l with
  | nil =>
    intro rest _ hr
    cases rest with
    | nil => rfl
    | cons c cs => simp [List.dropWhile_cons, headNotP] at hr ⊢; simp [hr]
  | cons c l ih =>
    intro rest hl hr
    have hc : p c = true := hl c (by simp)
    simp only [List.cons_append, List.dropWhile_cons, hc, if_true]
    exact ih rest (fun x hx => hl x (by simp [hx])) hr

theorem dropWhile_noop {p : Char → Bool} {cs : List Char} (h : headNotP p cs) :
    cs.dropWhile p = cs := by
  cases cs with
  | nil => rfl
  | cons c rest => simp only [headNotP] at h; simp [List.dropWhile_cons, h]

theorem ws_not_ident {c : Char} (h : isWsChar c = true) : isIdentChar c = false := by
  simp only [isWsChar, Bool.or_eq_true, decide_eq_true_eq] at h
  rcases h with ((h | h) | h) | h <;> subst h <;> rfl

theorem ident_not_ws {c : Char} (h : isIdentChar c = true) : isWsChar c = false := by
  by_contra hne
  have hw : isWsChar c = true := by
    cases hx : isWsChar c with
    | false => exact absurd hx hne
    | true => rfl
  rw [ws_not_ident hw] at h
  exact Bool.false_ne_true h

theorem ident_char_ne {c : Char} (h : isIdentChar c = true) {d : Char}
    (hd : isIdentChar d = false) : c ≠ d := by
  intro he
  rw [he, hd] at h
  exact Bool.false_ne_true h

theorem nameOkB_parts {m : String} (h : nameOkB m = true) :
    m.data ≠ [] ∧ ∀ c ∈ m.data, isIdentChar c = true := by
  simp only [nameOkB, Bool.and_eq_true, Bool.not_eq_true', List.all_eq_true] at h
  refine ⟨?_, h.2⟩
  intro hnil
  rw [hnil] at h
  simp at h

theorem skipWs_noop {cs : List Char} (h : headNotP isWsChar cs) : skipWs cs = cs :=
  dropWhile_noop h

theorem parseIdent_render (n : String) (rest : List Char) (hn : nameOkB n = true)
    (hr : headNotP isIdentChar rest) : parseIdent (n.data ++ rest) = some (n, rest) := by
  obtain ⟨hne, hall⟩ := nameOkB_parts hn
  unfold parseIdent
  rw [takeWhile_append_of_all n.data rest hall hr,
    dropWhile_append_of_all n.data rest hall hr]
  simp only [List.isEmpty_eq_true]
  rw [if_neg hne]

theorem parseModifier_render (m : String) (rest : List Char) (hm : nameOkB m = true)
    (hw : headNotP isWsChar rest) (hi : headNotP isIdentChar rest) :
    parseModifier (m.data ++ rest) = some (m, rest) := by
  obtain ⟨hne, hall⟩ := nameOkB_parts hm
  have hhead : headNotP isWsChar (m.data ++ rest) := by
    cases hd : m.data with
    | nil => exact absurd hd hne
    | cons c l =>
      have : isIdentChar c = true := hall c (by rw [hd]; simp)
      simp only [hd, List.cons_append, headNotP]
      exact ident_not_ws this
  unfold parseModifier
  rw [show skipWs (m.data ++ rest) = m.data ++ rest from skipWs_noop hhead]
  rw [parseIdent_render m rest hm hi]
  show some (m, skipWs rest) = some (m, rest)
  rw [skipWs_noop hw]

theorem renderModsChars_cons_eq (m : String) (ms : List String) :
    renderModsChars (m :: ms) = m.data ++ renderTailChars ms := by
  induction ms generalizing m with
  | nil => simp [renderModsChars, renderTailChars]
  | cons m2 ms ih =>
    show renderModsChars (m :: m2 :: ms) = _
    rw [show renderModsChars (m :: m2 :: ms) = m.data ++ ',' :: renderModsChars (m2 :: ms)
      from by simp [renderModsChars]]
    rw [ih m2]
    simp [renderTailChars]

theorem headNotP_tail_render (p : Char → Bool) (ms : List String) (rest : List Char)
    (hcomma : p ',' = false) (hbr : p ']' = false) :
    headNotP p (renderTailChars ms ++ ']' :: rest) := by
  cases ms with
  | nil => simpa [renderTailChars, headNotP] using hbr
  | cons m ms => simpa [renderTailChars, headNotP] using hcomma

theorem parseModTail_render :
    ∀ (ms : List String) (f : Nat) (acc : List String) (rest : List Char),
      (∀ m ∈ ms, nameOkB m = true) → ms.length < f →
      parseModTail f acc (renderTailChars ms ++ ']' :: rest) =
        some (acc.reverse ++ ms, rest) := by
  intro ms
  induction ms with
  | nil =>
    intro f acc rest _ hf
    obtain ⟨f', rfl⟩ : ∃ f', f = f' + 1 := ⟨f - 1, by omega⟩
    simp [renderTailChars, parseModTail]
  | cons m ms ih =>
    intro f acc rest hall hf
    obtain ⟨f', rfl⟩ : ∃ f', f = f' + 1 := ⟨f - 1, by omega⟩
    have hm : nameOkB m = true := hall m (by simp)
    obtain ⟨hne, hallc⟩ := nameOkB_parts hm
    obtain ⟨c2, l, hd⟩ : ∃ c2 l, m.data = c2 :: l := by
      cases hx : m.data with
      | nil => exact absurd hx hne
      | cons a b => exact ⟨a, b, rfl⟩
    have hc2 : isIdentChar c2 = true := hallc c2 (by rw [hd]; simp)
    show parseModTail (f' + 1) acc ((',' :: m.data ++ renderTailChars ms) ++ ']' :: rest) = _
    rw [hd]
    simp only [List.cons_append, List.append_assoc]
    rw [show parseModTail (f' + 1) acc (',' :: c2 :: (l ++ (renderTailChars ms ++ ']' :: rest))) =
        (if c2 = ']' then some (acc.reverse, l ++ (renderTailChars ms ++ ']' :: rest))
         else
           match parseModifier (c2 :: (l ++ (renderTailChars ms ++ ']' :: rest))) with
           | none => none
           | some (m', rest') => parseModTail f' (m' :: acc) rest')
      from by simp [parseModTail]]
    rw [if_neg (ident_char_ne hc2 (by decide))]
    rw [show c2 :: (l ++ (renderTailChars ms ++ ']' :: rest)) =
        m.data ++ (renderTailChars ms ++ ']' :: rest) from by rw [hd]; simp]
    rw [parseModifier_render m (renderTailChars ms ++ ']' :: rest) hm
      (headNotP_tail_render _ ms rest (by decide) (by decide))
      (headNotP_tail_render _ ms rest (by decide) (by decide))]
    show parseModTail f' (m :: acc) (renderTailChars ms ++ ']' :: rest) = _
    rw [ih f' (m :: acc) rest (fun x hx => hall x (by simp [hx])) (by simpa using Nat.lt_of_succ_lt_succ hf)]
    simp

theorem parseModList_render (m : String) (ms : List String) (f : Nat) (rest : List Char)
    (hall : ∀ x ∈ m :: ms, nameOkB x = true) (hf : ms.length < f) :
    parseModList f (renderModsChars (m :: ms) ++ ']' :: rest) = some (m :: ms, rest) := by
  have hm : nameOkB m = true := hall m (by simp)
  obtain ⟨hne, hallc⟩ := nameOkB_parts hm
  obtain ⟨c2, l, hd⟩ : ∃ c2 l, m.data = c2 :: l := by
    cases hx : m.data with
    | nil => exact absurd hx hne
    | cons a b => exact ⟨a, b, rfl⟩
  have hc2 : isIdentChar c2 = true := hallc c2 (by rw [hd]; simp)
  rw [renderModsChars_cons_eq]
  rw [show (m.data ++ renderTailChars ms) ++ ']' :: rest =
      c2 :: (l ++ (renderTailChars ms ++ ']' :: rest)) from by rw [hd]; simp]
  rw [show parseModList f (c2 :: (l ++ (renderTailChars ms ++ ']' :: rest))) =
      (if c2 = ']' then some ([], l ++ (renderTailChars ms ++ ']' :: rest))
       else
         match parseModifier (c2 :: (l ++ (renderTailChars ms ++ ']' :: rest))) with
         | none => none
         | some (m', rest') => parseModTail f [m'] rest')
    from by simp only [parseModList]]
  rw [if_neg (ident_char_ne hc2 (by decide))]
  rw [show c2 :: (l ++ (renderTailChars ms ++ ']' :: rest)) =
      m.data ++ (renderTailChars ms ++ ']' :: rest) from by rw [hd]; simp]
  rw [parseModifier_render m (renderTailChars ms ++ ']' :: rest) hm
    (headNotP_tail_render _ ms rest (by decide) (by decide))
    (headNotP_tail_render _ ms rest (by decide) (by decide))]
  show parseModTail f [m] (renderTailChars ms ++ ']' :: rest) = _
  rw [parseModTail_render ms f [m] rest (fun x hx => hall x (by simp [hx])) hf]
  simp

theorem validLineB_parts {p : String × List String} (h : validLineB p = true) :
    nameOkB p.1 = true ∧ ∀ m ∈ p.2, nameOkB m = true := by
  simp only [validLineB, Bool.and_eq_true, List.all_eq_true] at h
  exact h

theorem parseLineBody_render (p : String × List String) (f : Nat) (rest : List Char)
    (hp : validLineB p = true) (hf : p.2.length ≤ f)
    (hi : headNotP isIdentChar rest) (hb : headNotP (fun c => c = '[') rest) :
    parseLineBody f (renderLineChars p ++ rest) = some (p.1, p.2, rest) := by
  obtain ⟨hname, hmods⟩ := validLineB_parts hp
  cases hms : p.2 with
  | nil =>
    rw [show renderLineChars p = p.1.data from by simp [renderLineChars, hms]]
    simp only [parseLineBody]
    rw [parseIdent_render p.1 rest hname hi]
    cases rest with
    | nil => rfl
    | cons c cs' =>
      have hcb : (c = '[') = False := by
        simp only [headNotP] at hb
        simpa using hb
      show (if c = '[' then _ else some (p.1, [], c :: cs')) = _
      rw [if_neg (by simp [hcb])]
  | cons m ms =>
    rw [show renderLineChars p ++ rest =
        p.1.data ++ ('[' :: (renderModsChars (m :: ms) ++ ']' :: rest)) from by
      simp [renderLineChars, hms]]
    simp only [parseLineBody]
    rw [parseIdent_render p.1 ('[' :: (renderModsChars (m :: ms) ++ ']' :: rest)) hname
      (by simp [headNotP]; decide)]
    show (if ('[' : Char) = '[' then _ else _) = _
    rw [if_pos rfl]
    rw [parseModList_render m ms f rest (by rw [← hms]; exact hmods)
      (by have := hf; rw [hms] at this; simpa using Nat.lt_of_lt_of_le (Nat.lt_succ_self _) this)]
  
theorem dropWhile_replicate_nl (j : Nat) :
    (List.replicate j '\n').dropWhile (fun x => x = '\n') = [] := by
  induction j with
  | zero => rfl
  | succ j ih => simp [List.replicate_succ, List.dropWhile_cons, ih]

theorem headNotP_rest_render (p : Char → Bool) (es : List (String × List String))
    (k : Nat) (hnl : p '\n' = false) :
    headNotP p (renderRestChars es ++ List.replicate k '\n') := by
  cases es with
  | cons e es => simpa [renderRestChars, headNotP] using hnl
  | nil =>
    cases k with
    | zero => simp [renderRestChars, headNotP]
    | succ j => simpa [renderRestChars, headNotP, List.replicate_succ] using hnl

theorem parseElems_render :
    ∀ (es : List (String × List String)) (f k : Nat),
      (∀ e ∈ es, validLineB e = true) → elemsNeed es < f →
      parseElems f (renderRestChars es ++ List.replicate k '\n') =
        some (es.map (fun e => BEMElement.mk e.1 e.2)) := by
  intro es
  induction es with
  | nil =>
    intro f k hall hf
    obtain ⟨f', rfl⟩ : ∃ f', f = f' + 1 := ⟨f - 1, by omega⟩
    cases k with
    | zero => simp [renderRestChars, parseElems]
    | succ j =>
      rw [show renderRestChars [] ++ List.replicate (j + 1) '\n' =
          '\n' :: List.replicate j '\n' from by simp [renderRestChars, List.replicate_succ]]
      simp [parseElems, dropWhile_replicate_nl]
  | cons e es ih =>
    intro f k hall hf
    obtain ⟨f', rfl⟩ : ∃ f', f = f' + 1 := ⟨f - 1, by omega⟩
    have he : validLineB e = true := hall e (by simp)
    obtain ⟨hname, _⟩ := validLineB_parts he
    obtain ⟨hne, hallc⟩ := nameOkB_parts hname
    obtain ⟨c, l, hd⟩ : ∃ c l, e.1.data = c :: l := by
      cases hx : e.1.data with
      | nil => exact absurd hx hne
      | cons a b => exact ⟨a, b, rfl⟩
    have hcid : isIdentChar c = true := hallc c (by rw [hd]; simp)
    have hcnl : c ≠ '\n' := ident_char_ne hcid (by decide)
    rw [show renderRestChars (e :: es) ++ List.replicate k '\n' =
        '\n' :: (renderLineChars e ++ (renderRestChars es ++ List.replicate k '\n')) from by
      simp [renderRestChars]]
    have hline : ∃ l', renderLineChars e ++ (renderRestChars es ++ List.replicate k '\n')
        = c :: l' := by
      refine ⟨l ++ (match e.2 with
        | [] => []
        | _ => '[' :: renderModsChars e.2 ++ [']']) ++
          (renderRestChars es ++ List.replicate k '\n'), ?_⟩
      simp [renderLineChars, hd]
    obtain ⟨l', hl'⟩ := hline
    have hdw : (renderLineChars e ++ (renderRestChars es ++ List.replicate k '\n')).dropWhile
        (fun x => x = '\n') = renderLineChars e ++ (renderRestChars es ++ List.replicate k '\n') :=
      dropWhile_noop (by rw [hl']; simp only [headNotP]; simp [hcnl])
    rw [show parseElems (f' + 1)
        ('\n' :: (renderLineChars e ++ (renderRestChars es ++ List.replicate k '\n'))) =
        (if ((renderLineChars e ++ (renderRestChars es ++ List.replicate k '\n')).dropWhile
            (fun x => x = '\n')).isEmpty then some []
         else
           match parseLineBody f'
               ((renderLineChars e ++ (renderRestChars es ++ List.replicate k '\n')).dropWhile
                 (fun x => x = '\n')) with
           | none => none
           | some (n, ms, rest2) =>
             match parseElems f' rest2 with
             | none => none
             | some es' => some (BEMElement.mk n ms :: es')) from by
      simp [parseElems]]
    rw [hdw]
    rw [show (renderLineChars e ++ (renderRestChars es ++ List.replicate k '\n')).isEmpty = false
      from by rw [hl']; rfl]
    simp only [Bool.false_eq_true, if_false]
    rw [parseLineBody_render e f' (renderRestChars es ++ List.replicate k '\n') he
      (by simp [elemsNeed] at hf; omega)
      (headNotP_rest_render _ es k (by decide))
      (headNotP_rest_render _ es k (by decide))]
    show (match parseElems f' (renderRestChars es ++ List.replicate k '\n') with
          | none => none
          | some es' => some (BEMElement.mk e.1 e.2 :: es')) = _
    rw [ih f' k (fun x hx => hall x (by simp [hx])) (by simp [elemsNeed] at hf; omega)]
    simp

theorem renderTailChars_length_ge (ms : List String) :
    ms.length ≤ (renderTailChars ms).length := by
  induction ms with
  | nil => simp [renderTailChars]
  | cons m ms ih => simp [renderTailChars]; omega

theorem renderModsChars_length_ge (m : String) (ms : List String)
    (hm : nameOkB m = true) :
    ms.length + 1 ≤ (renderModsChars (m :: ms)).length := by
  obtain ⟨hne, _⟩ := nameOkB_parts hm
  have h1 : 1 ≤ m.data.length := by
    cases hx : m.data with
    | nil => exact absurd hx hne
    | cons a b => simp
  have h2 := renderTailChars_length_ge ms
  rw [renderModsChars_cons_eq, List.length_append]
  omega

theorem renderLineChars_length_ge (p : String × List String)
    (hp : validLineB p = true) : p.2.length ≤ (renderLineChars p).length := by
  obtain ⟨hname, hmods⟩ := validLineB_parts hp
  cases hms : p.2 with
  | nil => simp
  | cons m ms =>
    have := renderModsChars_length_ge m ms (hmods m (by rw [hms]; simp))
    simp [renderLineChars, hms]
    omega

theorem renderRestChars_length_ge (es : List (String × List String))
    (hall : ∀ e ∈ es, validLineB e = true) :
    elemsNeed es ≤ (renderRestChars es).length := by
  induction es with
  | nil => simp [elemsNeed, renderRestChars]
  | cons e es ih =>
    have h1 := renderLineChars_length_ge e (hall e (by simp))
    have h2 := ih (fun x hx => hall x (by simp [hx]))
    simp [elemsNeed, renderRestChars]
    omega

theorem parse_render (b : String × List String) (es : List (String × List String))
    (k : Nat) (hb : validLineB b = true) (hes : ∀ e ∈ es, validLineB e = true) :
    parse (String.mk (renderDocChars b es k)) =
      .ok (BEMBlock.mk b.1 b.2 (es.map (fun e => BEMElement.mk e.1 e.2))) := by
  have hlenb := renderLineChars_length_ge b hb
  have hlene := renderRestChars_length_ge es hes
  have hdata : (String.mk (renderDocChars b es k)).data = renderDocChars b es k := rfl
  have hlen : (renderDocChars b es k).length =
      (renderLineChars b).length + ((renderRestChars es).length + k) := by
    simp [renderDocChars]
  show (match parseLineBody ((String.mk (renderDocChars b es k)).data.length + 1)
          (String.mk (renderDocChars b es k)).data with
        | none => Except.error "Pest parsing error"
        | some (n, ms, rest) =>
          match parseElems ((String.mk (renderDocChars b es k)).data.length + 1) rest with
          | none => Except.error "Pest parsing error"
          | some es' => Except.ok (BEMBlock.mk n ms es')) = _
  rw [hdata]
  rw [show renderDocChars b es k =
      renderLineChars b ++ (renderRestChars es ++ List.replicate k '\n') from by
    simp [renderDocChars]]
  rw [parseLineBody_render b _ _ hb (by rw [hlen] at *; simp; omega)
    (headNotP_rest_render _ es k (by decide))
    (headNotP_rest_render _ es k (by decide))]
  show (match parseElems ((renderLineChars b ++ (renderRestChars es ++ List.replicate k '\n')).length + 1)
          (renderRestChars es ++ List.replicate k '\n') with
        | none => Except.error "Pest parsing error"
        | some es' => Except.ok (BEMBlock.mk b.1 b.2 es')) = _
  rw [parseElems_render es _ k hes (by simp; omega)]

theorem parseIdent_ident {cs : List Char} {n : String} {r : List Char}
    (h : parseIdent cs = some (n, r)) : nameOkB n = true := by
  simp only [parseIdent] at h
  split at h
  · exact absurd h (by simp)
  · rename_i hne
    simp only [Option.some.injEq, Prod.mk.injEq] at h
    obtain ⟨hn, _⟩ := h
    subst hn
    simp only [nameOkB]
    show (!(cs.takeWhile isIdentChar).isEmpty && (cs.takeWhile isIdentChar).all isIdentChar) = true
    have hne' : (cs.takeWhile isIdentChar).isEmpty = false := by
      cases hx : (cs.takeWhile isIdentChar).isEmpty with
      | false => rfl
      | true => exact absurd hx hne
    rw [hne']
    simp only [Bool.not_false, Bool.true_and, List.all_eq_true]
    exact fun c hc => List.mem_takeWhile_imp hc

theorem parseModifier_ident {cs : List Char} {m : String} {r : List Char}
    (h : parseModifier cs = some (m, r)) : nameOkB m = true := by
  simp only [parseModifier] at h
  split at h
  · exact absurd h (by simp)
  · rename_i m' r' heq
    simp only [Option.some.injEq, Prod.mk.injEq] at h
    obtain ⟨hm, _⟩ := h
    subst hm
    exact parseIdent_ident heq

theorem parseModTail_ident :
    ∀ (f : Nat) (acc : List String) (cs : List Char) (ms : List String) (r : List Char),
      parseModTail f acc cs = some (ms, r) → (∀ m ∈ acc, nameOkB m = true) →
      ∀ m ∈ ms, nameOkB m = true := by
  intro f
  induction f with
  | zero => intro acc cs ms r h _; exact absurd h (by simp [parseModTail])
  | succ f ih =>
    intro acc cs ms r h hacc
    cases cs with
    | nil => exact absurd h (by simp [parseModTail])
    | cons c rest =>
      simp only [parseModTail] at h
      split at h
      · simp only [Option.some.injEq, Prod.mk.injEq] at h
        obtain ⟨hms, _⟩ := h
        subst hms
        intro m hm
        exact hacc m (List.mem_reverse.mp hm)
      · split at h
        · split at h
          · exact absurd h (by simp)
          · split at h
            · simp only [Option.some.injEq, Prod.mk.injEq] at h
              obtain ⟨hms, _⟩ := h
              subst hms
              intro m hm
              exact hacc m (List.mem_reverse.mp hm)
            · split at h
              · exact absurd h (by simp)
              · rename_i m' rest' heq
                exact ih (m' :: acc) rest' ms r h
                  (fun x hx => by
                    rcases List.mem_cons.mp hx with hx | hx
                    · subst hx; exact parseModifier_ident heq
                    · exact hacc x hx)
        · exact absurd h (by simp)

theorem parseModList_ident {f : Nat} {cs : List Char} {ms : List String} {r : List Char}
    (h : parseModList f cs = some (ms, r)) : ∀ m ∈ ms, nameOkB m = true := by
  cases cs with
  | nil => exact absurd h (by simp [parseModList])
  | cons c rest =>
    simp only [parseModList] at h
    split at h
    · simp only [Option.some.injEq, Prod.mk.injEq] at h
      obtain ⟨hms, _⟩ := h
      subst hms
      intro m hm
      exact absurd hm (List.not_mem_nil m)
    · split at h
      · exact absurd h (by simp)
      · rename_i m' rest' heq
        exact parseModTail_ident f [m'] rest' ms r h
          (fun x hx => by
            rcases List.mem_cons.mp hx with hx | hx
            · subst hx; exact parseModifier_ident heq
            · exact absurd hx (List.not_mem_nil x))

theorem parseLineBody_ident {f : Nat} {cs : List Char} {n : String} {ms : List String}
    {r : List Char} (h : parseLineBody f cs = some (n, ms, r)) :
    nameOkB n = true ∧ ∀ m ∈ ms, nameOkB m = true := by
  simp only [parseLineBody] at h
  split at h
  · exact absurd h (by simp)
  · rename_i n' rest heq
    have hn' : nameOkB n' = true := parseIdent_ident heq
    split at h
    · simp only [Option.some.injEq, Prod.mk.injEq] at h
      obtain ⟨hn, hms, _⟩ := h
      subst hn; subst hms
      exact ⟨hn', fun m hm => absurd hm (List.not_mem_nil m)⟩
    · split at h
      · split at h
        · exact absurd h (by simp)
        · rename_i ms' rest2 hml
          simp only [Option.some.injEq, Prod.mk.injEq] at h
          obtain ⟨hn, hms, _⟩ := h
          subst hn; subst hms
          exact ⟨hn', parseModList_ident hml⟩
      · simp only [Option.some.injEq, Prod.mk.injEq] at h
        obtain ⟨hn, hms, _⟩ := h
        subst hn; subst hms
        exact ⟨hn', fun m hm => absurd hm (List.not_mem_nil m)⟩

theorem parseElems_ident :
    ∀ (f : Nat) (cs : List Char) (es : List BEMElement),
      parseElems f cs = some es →
      ∀ e ∈ es, nameOkB e.name = true ∧ ∀ m ∈ e.modifiers, nameOkB m = true := by
  intro f
  induction f with
  | zero => intro cs es h; exact absurd h (by simp [parseElems])
  | succ f ih =>
    intro cs es h
    cases cs with
    | nil =>
      simp only [parseElems, Option.some.injEq] at h
      subst h
      intro e he
      exact absurd he (List.not_mem_nil e)
    | cons c rest =>
      simp only [parseElems] at h
      split at h
      · split at h
        · simp only [Option.some.injEq] at h
          subst h
          intro e he
          exact absurd he (List.not_mem_nil e)
        · split at h
          · exact absurd h (by simp)
          · rename_i p n ms rest2 hlb
            split at h
            · exact absurd h (by simp)
            · rename_i es' hpe
              simp only [Option.some.injEq] at h
              subst h
              intro e he
              rcases List.mem_cons.mp he with he | he
              · subst he
                exact parseLineBody_ident hlb
              · exact ih rest2 es' hpe e he
      · exact absurd h (by simp)

theorem nameOkB_not_empty {m : String} (h : nameOkB m = true) : m.data.isEmpty = false := by
  obtain ⟨hne, _⟩ := nameOkB_parts h
  cases hx : m.data with
  | nil => exact absurd hx hne
  | cons a b => rfl

theorem parse_invariant {s : String} {b : BEMBlock} (h : parse s = .ok b) :
    blockInvariantB b = true := by
  replace h : (match parseLineBody (s.data.length + 1) s.data with
    | none => (Except.error "Pest parsing error" : Except String BEMBlock)
    | some (n, ms, rest) =>
      match parseElems (s.data.length + 1) rest with
      | none => Except.error "Pest parsing error"
      | some es => Except.ok (BEMBlock.mk n ms es)) = Except.ok b := h
  split at h
  · exact absurd h (by simp)
  · rename_i p n ms rest hlb
    split at h
    · exact absurd h (by simp)
    · rename_i es hpe
      simp only [Except.ok.injEq] at h
      subst h
      obtain ⟨hn, hms⟩ := parseLineBody_ident hlb
      have hes := parseElems_ident _ _ _ hpe
      simp only [blockInvariantB, Bool.and_eq_true, List.all_eq_true]
      refine ⟨⟨hn, ?_⟩, ?_⟩
      · intro m hm
        simp [nameOkB_not_empty (hms m hm)]
      · intro e he
        obtain ⟨hen, hems⟩ := hes e he
        refine ⟨hen, ?_⟩
        intro m hm
        simp [nameOkB_not_empty (hems m hm)]

theorem hexVal_hexDigit {m : Nat} (h : m < 16) : hexVal (hexDigit m) = some m := by
  interval_cases m <;> decide

theorem parseStrChars_escape_cons (c : Char) (tail : List Char) :
    parseStrChars (escapeChar c ++ tail) =
      match parseStrChars tail with
      | some (s, r) => some (c :: s, r)
      | none => none := by
  by_cases h1 : c = '"'
  · subst h1; simp [escapeChar, parseStrChars, unescapeChar]
  · by_cases h2 : c = '\\'
    · subst h2; simp [escapeChar, parseStrChars, unescapeChar]
    · by_cases h3 : c = '\x08'
      · subst h3; simp [escapeChar, parseStrChars, unescapeChar]
      · by_cases h4 : c = '\t'
        · subst h4; simp [escapeChar, parseStrChars, unescapeChar]
        · by_cases h5 : c = '\n'
          · subst h5; simp [escapeChar, parseStrChars, unescapeChar]
          · by_cases h6 : c = '\x0c'
            · subst h6; simp [escapeChar, parseStrChars, unescapeChar]
            · by_cases h7 : c = '\r'
              · subst h7; simp [escapeChar, parseStrChars, unescapeChar]
              · by_cases h8 : c.toNat < 32
                · rw [show escapeChar c =
                      ['\\', 'u', '0', '0', hexDigit (c.toNat / 16), hexDigit (c.toNat % 16)]
                    from by
                      rw [escapeChar, if_neg h1, if_neg h2, if_neg h3, if_neg h4, if_neg h5,
                        if_neg h6, if_neg h7, if_pos h8]]
                  have hd1 : hexVal (hexDigit (c.toNat / 16)) = some (c.toNat / 16) :=
                    hexVal_hexDigit (by omega)
                  have hd2 : hexVal (hexDigit (c.toNat % 16)) = some (c.toNat % 16) :=
                    hexVal_hexDigit (by omega)
                  rw [show ('\\' :: 'u' :: '0' :: '0' :: hexDigit (c.toNat / 16) ::
                      hexDigit (c.toNat % 16) :: [] ++ tail) =
                      ('\\' :: 'u' :: '0' :: '0' :: hexDigit (c.toNat / 16) ::
                      hexDigit (c.toNat % 16) :: tail) from rfl]
                  rw [show parseStrChars ('\\' :: 'u' :: '0' :: '0' :: hexDigit (c.toNat / 16) ::
                      hexDigit (c.toNat % 16) :: tail) =
                      (match hexVal '0', hexVal '0', hexVal (c.toNat / 16 |> hexDigit),
                          hexVal (c.toNat % 16 |> hexDigit) with
                       | some a, some b, some c3, some d =>
                         let n := ((a * 16 + b) * 16 + c3) * 16 + d
                         if n < 55296 ∨ 57344 ≤ n then
                           match parseStrChars tail with
                           | some (s, r) => some (Char.ofNat n :: s, r)
                           | none => none
                         else none
                       | _, _, _, _ => none) from by simp [parseStrChars]]
                  rw [show hexVal '0' = some 0 from rfl, hd1, hd2]
                  show (let n := ((0 * 16 + 0) * 16 + c.toNat / 16) * 16 + c.toNat % 16
                        if n < 55296 ∨ 57344 ≤ n then
                          match parseStrChars tail with
                          | some (s, r) => some (Char.ofNat n :: s, r)
                          | none => none
                        else none) = _
                  have hn : ((0 * 16 + 0) * 16 + c.toNat / 16) * 16 + c.toNat % 16 = c.toNat := by
                    omega
                  show (if ((0 * 16 + 0) * 16 + c.toNat / 16) * 16 + c.toNat % 16 < 55296 ∨
                        57344 ≤ ((0 * 16 + 0) * 16 + c.toNat / 16) * 16 + c.toNat % 16 then
                          match parseStrChars tail with
                          | some (s, r) =>
                            some (Char.ofNat (((0 * 16 + 0) * 16 + c.toNat / 16) * 16 +
                              c.toNat % 16) :: s, r)
                          | none => none
                        else none) = _
                  rw [hn]
                  rw [if_pos (Or.inl (by omega))]
                  rw [Char.ofNat_toNat]
                · rw [show escapeChar c = [c] from by
                    rw [escapeChar, if_neg h1, if_neg h2, if_neg h3, if_neg h4, if_neg h5,
                      if_neg h6, if_neg h7, if_neg h8]]
                  show parseStrChars (c :: tail) = _
                  rw [show parseStrChars (c :: tail) =
                      (if c = '"' then some ([], tail)
                       else if c = '\\' then
                         match tail with
                         | 'u' :: h1 :: h2 :: h3 :: h4 :: cs' =>
                           match hexVal h1, hexVal h2, hexVal h3, hexVal h4 with
                           | some a, some b, some c3, some d =>
                             let n := ((a * 16 + b) * 16 + c3) * 16 + d
                             if n < 55296 ∨ 57344 ≤ n then
                               match parseStrChars cs' with
                               | some (s, r) => some (Char.ofNat n :: s, r)
                               | none => none
                             else none
                           | _, _, _, _ => none
                         | e :: cs' =>
                           match unescapeChar e with
                           | some c' =>
                             match parseStrChars cs' with
                             | some (s, r) => some (c' :: s, r)
                             | none => none
                           | none => none
                         | [] => none
                       else if c.toNat < 32 then none
                       else
                         match parseStrChars tail with
                         | some (s, r) => some (c :: s, r)
                         | none => none) from by rw [parseStrChars.eq_def]]
                  rw [if_neg h1, if_neg h2, if_neg h8]

theorem parseStrChars_escape :
    ∀ (l : List Char) (tail : List Char),
      parseStrChars ((l.map escapeChar).flatten ++ '"' :: tail) = some (l, tail) := by
  intro l
  induction l with
  | nil =>
    intro tail
    rw [parseStrChars.eq_def]
    simp
  | cons c l ih =>
    intro tail
    rw [show ((c :: l).map escapeChar).flatten ++ '"' :: tail =
        escapeChar c ++ ((l.map escapeChar).flatten ++ '"' :: tail) from by simp]
    rw [parseStrChars_escape_cons]
    rw [ih tail]

theorem encodeString_data_append (s : String) (rest : List Char) :
    (encodeString s).data ++ rest = '"' :: ((s.data.map escapeChar).flatten ++ '"' :: rest) := by
  simp [encodeString]

theorem skipJWs_noop {cs : List Char} (h : headNotP isJWs cs) : skipJWs cs = cs :=
  dropWhile_noop h

theorem parseValue_str (s : String) (f : Nat) (rest : List Char) (hf : 1 ≤ f) :
    parseValue f ((encodeString s).data ++ rest) = some (.str s, rest) := by
  obtain ⟨f', rfl⟩ : ∃ f', f = f' + 1 := ⟨f - 1, by omega⟩
  rw [encodeString_data_append]
  rw [show parseValue (f' + 1) ('"' :: ((s.data.map escapeChar).flatten ++ '"' :: rest)) =
      (match parseStrChars ((s.data.map escapeChar).flatten ++ '"' :: rest) with
       | some (s', r) => some (.str (String.mk s'), r)
       | none => none) from by simp [parseValue]]
  rw [parseStrChars_escape]

theorem joinComma_cons (x : String) (xs : List String) :
    joinComma (x :: xs) = x ++ joinCommaTail xs := by
  induction xs generalizing x with
  | nil => simp [joinComma, joinCommaTail]
  | cons y ys ih =>
    show joinComma (x :: y :: ys) = _
    rw [show joinComma (x :: y :: ys) = x ++ "," ++ joinComma (y :: ys) from by
      simp [joinComma]]
    rw [ih y]
    simp [joinCommaTail, String.append_assoc]

theorem headNotP_joinCommaTail (p : Char → Bool) (pieces : List String) (t : Char)
    (rest : List Char) (hcomma : p ',' = false) (ht : p t = false) :
    headNotP p ((joinCommaTail pieces).data ++ t :: rest) := by
  cases pieces with
  | nil => simpa [joinCommaTail, headNotP] using ht
  | cons x xs => simpa [joinCommaTail, headNotP] using hcomma

theorem parseArrTail_strings :
    ∀ (ms : List String) (f : Nat) (acc : List Json) (rest : List Char),
      ms.length < f →
      parseArrTail f acc ((joinCommaTail (ms.map encodeString)).data ++ ']' :: rest) =
        some (.arr (acc.reverse ++ ms.map .str), rest) := by
  intro ms
  induction ms with
  | nil =>
    intro f acc rest hf
    obtain ⟨f', rfl⟩ : ∃ f', f = f' + 1 := ⟨f - 1, by omega⟩
    simp [joinCommaTail, parseArrTail]
  | cons m ms ih =>
    intro f acc rest hf
    obtain ⟨f', rfl⟩ : ∃ f', f = f' + 1 := ⟨f - 1, by omega⟩
    simp only [List.length_cons] at hf
    rw [show (joinCommaTail ((m :: ms).map encodeString)).data ++ ']' :: rest =
        ',' :: ((encodeString m).data ++
          ((joinCommaTail (ms.map encodeString)).data ++ ']' :: rest)) from by
      simp [joinCommaTail]]
    rw [show parseArrTail (f' + 1) acc
        (',' :: ((encodeString m).data ++
          ((joinCommaTail (ms.map encodeString)).data ++ ']' :: rest))) =
        (match parseValue f' (skipJWs ((encodeString m).data ++
            ((joinCommaTail (ms.map encodeString)).data ++ ']' :: rest))) with
         | none => none
         | some (v, r) => parseArrTail f' (v :: acc) (skipJWs r)) from by
      simp [parseArrTail]]
    rw [show skipJWs ((encodeString m).data ++
        ((joinCommaTail (ms.map encodeString)).data ++ ']' :: rest)) =
        (encodeString m).data ++
          ((joinCommaTail (ms.map encodeString)).data ++ ']' :: rest) from
      skipJWs_noop (by rw [encodeString_data_append]; simp only [headNotP]; decide)]
    rw [parseValue_str m f' _ (by omega)]
    show parseArrTail f' (Json.str m :: acc)
        (skipJWs ((joinCommaTail (ms.map encodeString)).data ++ ']' :: rest)) = _
    rw [show skipJWs ((joinCommaTail (ms.map encodeString)).data ++ ']' :: rest) =
        (joinCommaTail (ms.map encodeString)).data ++ ']' :: rest from
      skipJWs_noop (headNotP_joinCommaTail _ _ _ _ (by decide) (by decide))]
    rw [ih f' (Json.str m :: acc) rest (by omega)]
    simp

theorem parseValue_strList (ms : List String) (f : Nat) (rest : List Char)
    (hf : ms.length + 2 ≤ f) :
    parseValue f ((encodeStrList ms).data ++ rest) = some (.arr (ms.map .str), rest) := by
  obtain ⟨f', rfl⟩ : ∃ f', f = f' + 1 := ⟨f - 1, by omega⟩
  rw [show (encodeStrList ms).data ++ rest =
      '[' :: ((joinComma (ms.map encodeString)).data ++ ']' :: rest) from by
    simp [encodeStrList]]
  rw [show parseValue (f' + 1) ('[' :: ((joinComma (ms.map encodeString)).data ++ ']' :: rest)) =
      parseArrBody f' (skipJWs ((joinComma (ms.map encodeString)).data ++ ']' :: rest)) from by
    simp [parseValue]]
  cases ms with
  | nil =>
    rw [show skipJWs ((joinComma (([] : List String).map encodeString)).data ++ ']' :: rest) =
        ']' :: rest from by simp [joinComma, skipJWs, List.dropWhile_cons, isJWs]]
    obtain ⟨f'', rfl⟩ : ∃ f'', f' = f'' + 1 := ⟨f' - 1, by omega⟩
    simp [parseArrBody]
  | cons m ms' =>
    simp only [List.map_cons]
    rw [joinComma_cons]
    rw [show ((encodeString m ++ joinCommaTail (ms'.map encodeString)).data ++ ']' :: rest) =
        (encodeString m).data ++
          ((joinCommaTail (ms'.map encodeString)).data ++ ']' :: rest) from by simp]
    rw [show skipJWs ((encodeString m).data ++
        ((joinCommaTail (ms'.map encodeString)).data ++ ']' :: rest)) =
        (encodeString m).data ++
          ((joinCommaTail (ms'.map encodeString)).data ++ ']' :: rest) from
      skipJWs_noop (by rw [encodeString_data_append]; simp only [headNotP]; decide)]
    obtain ⟨f'', rfl⟩ : ∃ f'', f' = f'' + 1 := ⟨f' - 1, by omega⟩
    rw [encodeString_data_append]
    rw [show parseArrBody (f'' + 1)
        ('"' :: ((m.data.map escapeChar).flatten ++ '"' ::
          ((joinCommaTail (ms'.map encodeString)).data ++ ']' :: rest))) =
        (match parseValue f''
            ('"' :: ((m.data.map escapeChar).flatten ++ '"' ::
              ((joinCommaTail (ms'.map encodeString)).data ++ ']' :: rest))) with
         | none => none
         | some (v, r) => parseArrTail f'' [v] (skipJWs r)) from by
      simp [parseArrBody]]
    rw [show ('"' :: ((m.data.map escapeChar).flatten ++ '"' ::
        ((joinCommaTail (ms'.map encodeString)).data ++ ']' :: rest))) =
        (encodeString m).data ++
          ((joinCommaTail (ms'.map encodeString)).data ++ ']' :: rest) from
      (encodeString_data_append m _).symm]
    rw [parseValue_str m f'' _ (by simp at hf; omega)]
    show parseArrTail f'' [Json.str m]
        (skipJWs ((joinCommaTail (ms'.map encodeString)).data ++ ']' :: rest)) = _
    rw [show skipJWs ((joinCommaTail (ms'.map encodeString)).data ++ ']' :: rest) =
        (joinCommaTail (ms'.map encodeString)).data ++ ']' :: rest from
      skipJWs_noop (headNotP_joinCommaTail _ _ _ _ (by decide) (by decide))]
    rw [parseArrTail_strings ms' f'' [Json.str m] rest (by simp at hf; omega)]
    simp

theorem skipJWs_cons_noop {c : Char} {cs : List Char} (h : isJWs c = false) :
    skipJWs (c :: cs) = c :: cs := by
  simp [skipJWs, List.dropWhile_cons, h]

theorem parseObjTail_close (f : Nat) (acc : List (String × Json)) (rest : List Char) :
    parseObjTail (f + 1) acc ('\x7d' :: rest) = some (.obj acc.reverse, rest) := by
  simp [parseObjTail]

theorem parseObjBody_key (f : Nat) (k : List Char) (hk : (k.map escapeChar).flatten = k)
    (X : List Char) :
    parseObjBody (f + 1) ('"' :: (k ++ '"' :: ':' :: X)) =
      (match parseValue f (skipJWs X) with
       | none => none
       | some (v, r) => parseObjTail f [(String.mk k, v)] (skipJWs r)) := by
  rw [show parseObjBody (f + 1) ('"' :: (k ++ '"' :: ':' :: X)) =
      (match parseStrChars (k ++ '"' :: ':' :: X) with
       | none => none
       | some (k', r) =>
         match skipJWs r with
         | ':' :: r2 =>
           match parseValue f (skipJWs r2) with
           | none => none
           | some (v, r3) => parseObjTail f [(String.mk k', v)] (skipJWs r3)
         | _ => none) from by simp [parseObjBody]]
  rw [show k ++ '"' :: ':' :: X = (k.map escapeChar).flatten ++ '"' :: (':' :: X) from by
    rw [hk]]
  rw [parseStrChars_escape]
  show (match skipJWs (':' :: X) with
        | ':' :: r2 =>
          match parseValue f (skipJWs r2) with
          | none => none
          | some (v, r3) => parseObjTail f [(String.mk k, v)] (skipJWs r3)
        | _ => none) = _
  rw [skipJWs_cons_noop (by decide)]
  rfl

theorem parseObjTail_key (f : Nat) (acc : List (String × Json)) (k : List Char)
    (hk : (k.map escapeChar).flatten = k) (X : List Char) :
    parseObjTail (f + 1) acc (',' :: '"' :: (k ++ '"' :: ':' :: X)) =
      (match parseValue f (skipJWs X) with
       | none => none
       | some (v, r) => parseObjTail f ((String.mk k, v) :: acc) (skipJWs r)) := by
  rw [show parseObjTail (f + 1) acc (',' :: '"' :: (k ++ '"' :: ':' :: X)) =
      (match skipJWs ('"' :: (k ++ '"' :: ':' :: X)) with
       | '"' :: r =>
         match parseStrChars r with
         | none => none
         | some (k', r1) =>
           match skipJWs r1 with
           | ':' :: r2 =>
             match parseValue f (skipJWs r2) with
             | none => none
             | some (v, r3) => parseObjTail f ((String.mk k', v) :: acc) (skipJWs r3)
           | _ => none
       | _ => none) from by simp [parseObjTail]]
  rw [skipJWs_cons_noop (by decide)]
  show (match parseStrChars (k ++ '"' :: ':' :: X) with
        | none => none
        | some (k', r1) =>
          match skipJWs r1 with
          | ':' :: r2 =>
            match parseValue f (skipJWs r2) with
            | none => none
            | some (v, r3) => parseObjTail f ((String.mk k', v) :: acc) (skipJWs r3)
          | _ => none) = _
  rw [show k ++ '"' :: ':' :: X = (k.map escapeChar).flatten ++ '"' :: (':' :: X) from by
    rw [hk]]
  rw [parseStrChars_escape]
  show (match skipJWs (':' :: X) with
        | ':' :: r2 =>
          match parseValue f (skipJWs r2) with
          | none => none
          | some (v, r3) => parseObjTail f ((String.mk k, v) :: acc) (skipJWs r3)
        | _ => none) = _
  rw [skipJWs_cons_noop (by decide)]
  rfl

theorem encodeElement_data_decomp (e : BEMElement) (rest : List Char) :
    (encodeElement e).data ++ rest =
      '\x7b' :: '"' :: (['n', 'a', 'm', 'e'] ++ '"' :: ':' ::
        ((encodeString e.name).data ++
          (',' :: '"' :: (['m', 'o', 'd', 'i', 'f', 'i', 'e', 'r', 's'] ++ '"' :: ':' ::
            ((encodeStrList e.modifiers).data ++ '\x7d' :: rest))))) := by
  have h1 : ("\x7b\"name\":" : String).data =
      ['\x7b', '"', 'n', 'a', 'm', 'e', '"', ':'] := rfl
  have h2 : (",\"modifiers\":" : String).data =
      [',', '"', 'm', 'o', 'd', 'i', 'f', 'i', 'e', 'r', 's', '"', ':'] := rfl
  have h3 : ("\x7d" : String).data = ['\x7d'] := rfl
  simp [encodeElement, h1, h2, h3]

theorem parseValue_element (e : BEMElement) (f : Nat) (rest : List Char)
    (hf : e.modifiers.length + 5 ≤ f) :
    parseValue f ((encodeElement e).data ++ rest) = some (jsonOfElement e, rest) := by
  obtain ⟨f1, rfl⟩ : ∃ f1, f = f1 + 1 := ⟨f - 1, by omega⟩
  rw [encodeElement_data_decomp]
  rw [show parseValue (f1 + 1) ('\x7b' :: '"' :: (['n', 'a', 'm', 'e'] ++ '"' :: ':' ::
      ((encodeString e.name).data ++
        (',' :: '"' :: (['m', 'o', 'd', 'i', 'f', 'i', 'e', 'r', 's'] ++ '"' :: ':' ::
          ((encodeStrList e.modifiers).data ++ '\x7d' :: rest)))))) =
      parseObjBody f1 (skipJWs ('"' :: (['n', 'a', 'm', 'e'] ++ '"' :: ':' ::
      ((encodeString e.name).data ++
        (',' :: '"' :: (['m', 'o', 'd', 'i', 'f', 'i', 'e', 'r', 's'] ++ '"' :: ':' ::
          ((encodeStrList e.modifiers).data ++ '\x7d' :: rest))))))) from by
    simp [parseValue]]
  rw [skipJWs_cons_noop (by decide)]
  obtain ⟨f2, rfl⟩ : ∃ f2, f1 = f2 + 1 := ⟨f1 - 1, by omega⟩
  rw [parseObjBody_key f2 ['n', 'a', 'm', 'e'] (by decide) _]
  rw [show skipJWs ((encodeString e.name).data ++
      (',' :: '"' :: (['m', 'o', 'd', 'i', 'f', 'i', 'e', 'r', 's'] ++ '"' :: ':' ::
        ((encodeStrList e.modifiers).data ++ '\x7d' :: rest)))) =
      (encodeString e.name).data ++
      (',' :: '"' :: (['m', 'o', 'd', 'i', 'f', 'i', 'e', 'r', 's'] ++ '"' :: ':' ::
        ((encodeStrList e.modifiers).data ++ '\x7d' :: rest))) from
    skipJWs_noop (by rw [encodeString_data_append]; simp only [headNotP]; decide)]
  rw [parseValue_str e.name f2 _ (by omega)]
  show parseObjTail f2 [(String.mk ['n', 'a', 'm', 'e'], Json.str e.name)]
      (skipJWs (',' :: '"' :: (['m', 'o', 'd', 'i', 'f', 'i', 'e', 'r', 's'] ++ '"' :: ':' ::
        ((encodeStrList e.modifiers).data ++ '\x7d' :: rest)))) = _
  rw [skipJWs_cons_noop (by decide)]
  obtain ⟨f3, rfl⟩ : ∃ f3, f2 = f3 + 1 := ⟨f2 - 1, by omega⟩
  rw [parseObjTail_key f3 _ ['m', 'o', 'd', 'i', 'f', 'i', 'e', 'r', 's'] (by decide) _]
  rw [show skipJWs ((encodeStrList e.modifiers).data ++ '\x7d' :: rest) =
      (encodeStrList e.modifiers).data ++ '\x7d' :: rest from
    skipJWs_noop (by
      rw [show (encodeStrList e.modifiers).data ++ '\x7d' :: rest =
          '[' :: ((joinComma (e.modifiers.map encodeString)).data ++ ']' :: '\x7d' :: rest)
        from by simp [encodeStrList]]
      simp only [headNotP]; decide)]
  rw [parseValue_strList e.modifiers f3 _ (by omega)]
  show parseObjTail f3 [(String.mk ['m', 'o', 'd', 'i', 'f', 'i', 'e', 'r', 's'],
      Json.arr (e.modifiers.map Json.str)),
      (String.mk ['n', 'a', 'm', 'e'], Json.str e.name)] (skipJWs ('\x7d' :: rest)) = _
  rw [skipJWs_cons_noop (by decide)]
  obtain ⟨f4, rfl⟩ : ∃ f4, f3 = f4 + 1 := ⟨f3 - 1, by omega⟩
  rw [parseObjTail_close]
  rfl

theorem headNotP_encodeElement (e : BEMElement) (X : List Char) :
    headNotP isJWs ((encodeElement e).data ++ X) := by
  rw [encodeElement_data_decomp]
  simp only [headNotP]
  decide

theorem parseArrTail_elements :
    ∀ (es : List BEMElement) (f : Nat) (acc : List Json) (rest : List Char),
      elemsCost es < f →
      parseArrTail f acc ((joinCommaTail (es.map encodeElement)).data ++ ']' :: rest) =
        some (.arr (acc.reverse ++ es.map jsonOfElement), rest) := by
  intro es
  induction es with
  | nil =>
    intro f acc rest hf
    obtain ⟨f', rfl⟩ : ∃ f', f = f' + 1 := ⟨f - 1, by omega⟩
    simp [joinCommaTail, parseArrTail]
  | cons e es ih =>
    intro f acc rest hf
    obtain ⟨f', rfl⟩ : ∃ f', f = f' + 1 := ⟨f - 1, by omega⟩
    simp only [elemsCost] at hf
    rw [show (joinCommaTail ((e :: es).map encodeElement)).data ++ ']' :: rest =
        ',' :: ((encodeElement e).data ++
          ((joinCommaTail (es.map encodeElement)).data ++ ']' :: rest)) from by
      simp [joinCommaTail]]
    rw [show parseArrTail (f' + 1) acc
        (',' :: ((encodeElement e).data ++
          ((joinCommaTail (es.map encodeElement)).data ++ ']' :: rest))) =
        (match parseValue f' (skipJWs ((encodeElement e).data ++
            ((joinCommaTail (es.map encodeElement)).data ++ ']' :: rest))) with
         | none => none
         | some (v, r) => parseArrTail f' (v :: acc) (skipJWs r)) from by
      simp [parseArrTail]]
    rw [skipJWs_noop (headNotP_encodeElement e _)]
    rw [parseValue_element e f' _ (by omega)]
    show parseArrTail f' (jsonOfElement e :: acc)
        (skipJWs ((joinCommaTail (es.map encodeElement)).data ++ ']' :: rest)) = _
    rw [show skipJWs ((joinCommaTail (es.map encodeElement)).data ++ ']' :: rest) =
        (joinCommaTail (es.map encodeElement)).data ++ ']' :: rest from
      skipJWs_noop (headNotP_joinCommaTail _ _ _ _ (by decide) (by decide))]
    rw [ih f' (jsonOfElement e :: acc) rest (by omega)]
    simp

theorem parseValue_elemArr (es : List BEMElement) (f : Nat) (rest : List Char)
    (hf : elemsCost es + 2 ≤ f) :
    parseValue f ('[' :: ((joinComma (es.map encodeElement)).data ++ ']' :: rest)) =
      some (.arr (es.map jsonOfElement), rest) := by
  obtain ⟨f', rfl⟩ : ∃ f', f = f' + 1 := ⟨f - 1, by omega⟩
  rw [show parseValue (f' + 1)
      ('[' :: ((joinComma (es.map encodeElement)).data ++ ']' :: rest)) =
      parseArrBody f' (skipJWs ((joinComma (es.map encodeElement)).data ++ ']' :: rest))
    from by simp [parseValue]]
  cases es with
  | nil =>
    rw [show skipJWs ((joinComma (([] : List BEMElement).map encodeElement)).data ++
        ']' :: rest) = ']' :: rest from by
      simp [joinComma, skipJWs, List.dropWhile_cons, isJWs]]
    obtain ⟨f'', rfl⟩ : ∃ f'', f' = f'' + 1 := ⟨f' - 1, by omega⟩
    simp [parseArrBody]
  | cons e es' =>
    simp only [List.map_cons]
    rw [joinComma_cons]
    rw [show ((encodeElement e ++ joinCommaTail (es'.map encodeElement)).data ++ ']' :: rest) =
        (encodeElement e).data ++
          ((joinCommaTail (es'.map encodeElement)).data ++ ']' :: rest) from by simp]
    rw [skipJWs_noop (headNotP_encodeElement e _)]
    obtain ⟨f'', rfl⟩ : ∃ f'', f' = f'' + 1 := ⟨f' - 1, by omega⟩
    rw [encodeElement_data_decomp]
    rw [show parseArrBody (f'' + 1)
        ('\x7b' :: '"' :: (['n', 'a', 'm', 'e'] ++ '"' :: ':' ::
          ((encodeString e.name).data ++
            (',' :: '"' :: (['m', 'o', 'd', 'i', 'f', 'i', 'e', 'r', 's'] ++ '"' :: ':' ::
              ((encodeStrList e.modifiers).data ++ '\x7d' ::
                ((joinCommaTail (es'.map encodeElement)).data ++ ']' :: rest))))))) =
        (match parseValue f''
            ('\x7b' :: '"' :: (['n', 'a', 'm', 'e'] ++ '"' :: ':' ::
              ((encodeString e.name).data ++
                (',' :: '"' :: (['m', 'o', 'd', 'i', 'f', 'i', 'e', 'r', 's'] ++ '"' :: ':' ::
                  ((encodeStrList e.modifiers).data ++ '\x7d' ::
                    ((joinCommaTail (es'.map encodeElement)).data ++ ']' :: rest))))))) with
         | none => none
         | some (v, r) => parseArrTail f'' [v] (skipJWs r)) from by
      simp [parseArrBody]]
    rw [← encodeElement_data_decomp]
    rw [parseValue_element e f'' _ (by simp [elemsCost] at hf; omega)]
    show parseArrTail f'' [jsonOfElement e]
        (skipJWs ((joinCommaTail (es'.map encodeElement)).data ++ ']' :: rest)) = _
    rw [show skipJWs ((joinCommaTail (es'.map encodeElement)).data ++ ']' :: rest) =
        (joinCommaTail (es'.map encodeElement)).data ++ ']' :: rest from
      skipJWs_noop (headNotP_joinCommaTail _ _ _ _ (by decide) (by decide))]
    rw [parseArrTail_elements es' f'' [jsonOfElement e] rest (by simp [elemsCost] at hf; omega)]
    simp

theorem encodeBlock_data_decomp (b : BEMBlock) (rest : List Char) :
    (encodeBlock b).data ++ rest =
      '\x7b' :: '"' :: (['n', 'a', 'm', 'e'] ++ '"' :: ':' ::
        ((encodeString b.name).data ++
          (',' :: '"' :: (['m', 'o', 'd', 'i', 'f', 'i', 'e', 'r', 's'] ++ '"' :: ':' ::
            ((encodeStrList b.modifiers).data ++
              (',' :: '"' :: (['e', 'l', 'e', 'm', 'e', 'n', 't', 's'] ++ '"' :: ':' ::
                ('[' :: ((joinComma (b.elements.map encodeElement)).data ++
                  ']' :: '\x7d' :: rest))))))))) := by
  have h1 : ("\x7b\"name\":" : String).data =
      ['\x7b', '"', 'n', 'a', 'm', 'e', '"', ':'] := rfl
  have h2 : (",\"modifiers\":" : String).data =
      [',', '"', 'm', 'o', 'd', 'i', 'f', 'i', 'e', 'r', 's', '"', ':'] := rfl
  have h3 : (",\"elements\":[" : String).data =
      [',', '"', 'e', 'l', 'e', 'm', 'e', 'n', 't', 's', '"', ':', '['] := rfl
  have h4 : ("]\x7d" : String).data = [']', '\x7d'] := rfl
  simp [encodeBlock, h1, h2, h3, h4]

theorem parseValue_block (b : BEMBlock) (f : Nat) (rest : List Char)
    (hf : b.modifiers.length + elemsCost b.elements + 10 ≤ f) :
    parseValue f ((encodeBlock b).data ++ rest) = some (jsonOfBlock b, rest) := by
  obtain ⟨f1, rfl⟩ : ∃ f1, f = f1 + 1 := ⟨f - 1, by omega⟩
  rw [encodeBlock_data_decomp]
  rw [show parseValue (f1 + 1) ('\x7b' :: '"' :: (['n', 'a', 'm', 'e'] ++ '"' :: ':' ::
      ((encodeString b.name).data ++
        (',' :: '"' :: (['m', 'o', 'd', 'i', 'f', 'i', 'e', 'r', 's'] ++ '"' :: ':' ::
          ((encodeStrList b.modifiers).data ++
            (',' :: '"' :: (['e', 'l', 'e', 'm', 'e', 'n', 't', 's'] ++ '"' :: ':' ::
              ('[' :: ((joinComma (b.elements.map encodeElement)).data ++
                ']' :: '\x7d' :: rest)))))))))) =
      parseObjBody f1 (skipJWs ('"' :: (['n', 'a', 'm', 'e'] ++ '"' :: ':' ::
      ((encodeString b.name).data ++
        (',' :: '"' :: (['m', 'o', 'd', 'i', 'f', 'i', 'e', 'r', 's'] ++ '"' :: ':' ::
          ((encodeStrList b.modifiers).data ++
            (',' :: '"' :: (['e', 'l', 'e', 'm', 'e', 'n', 't', 's'] ++ '"' :: ':' ::
              ('[' :: ((joinComma (b.elements.map encodeElement)).data ++
                ']' :: '\x7d' :: rest))))))))))) from by simp [parseValue]]
  rw [skipJWs_cons_noop (by decide)]
  obtain ⟨f2, rfl⟩ : ∃ f2, f1 = f2 + 1 := ⟨f1 - 1, by omega⟩
  rw [parseObjBody_key f2 ['n', 'a', 'm', 'e'] (by decide) _]
  rw [show skipJWs ((encodeString b.name).data ++
      (',' :: '"' :: (['m', 'o', 'd', 'i', 'f', 'i', 'e', 'r', 's'] ++ '"' :: ':' ::
        ((encodeStrList b.modifiers).data ++
          (',' :: '"' :: (['e', 'l', 'e', 'm', 'e', 'n', 't', 's'] ++ '"' :: ':' ::
            ('[' :: ((joinComma (b.elements.map encodeElement)).data ++
              ']' :: '\x7d' :: rest)))))))) =
      (encodeString b.name).data ++
      (',' :: '"' :: (['m', 'o', 'd', 'i', 'f', 'i', 'e', 'r', 's'] ++ '"' :: ':' ::
        ((encodeStrList b.modifiers).data ++
          (',' :: '"' :: (['e', 'l', 'e', 'm', 'e', 'n', 't', 's'] ++ '"' :: ':' ::
            ('[' :: ((joinComma (b.elements.map encodeElement)).data ++
              ']' :: '\x7d' :: rest))))))) from
    skipJWs_noop (by rw [encodeString_data_append]; simp only [headNotP]; decide)]
  rw [parseValue_str b.name f2 _ (by omega)]
  show parseObjTail f2 [(String.mk ['n', 'a', 'm', 'e'], Json.str b.name)]
      (skipJWs (',' :: '"' :: (['m', 'o', 'd', 'i', 'f', 'i', 'e', 'r', 's'] ++ '"' :: ':' ::
        ((encodeStrList b.modifiers).data ++
          (',' :: '"' :: (['e', 'l', 'e', 'm', 'e', 'n', 't', 's'] ++ '"' :: ':' ::
            ('[' :: ((joinComma (b.elements.map encodeElement)).data ++
              ']' :: '\x7d' :: rest)))))))) = _
  rw [skipJWs_cons_noop (by decide)]
  obtain ⟨f3, rfl⟩ : ∃ f3, f2 = f3 + 1 := ⟨f2 - 1, by omega⟩
  rw [parseObjTail_key f3 _ ['m', 'o', 'd', 'i', 'f', 'i', 'e', 'r', 's'] (by decide) _]
  rw [show skipJWs ((encodeStrList b.modifiers).data ++
      (',' :: '"' :: (['e', 'l', 'e', 'm', 'e', 'n', 't', 's'] ++ '"' :: ':' ::
        ('[' :: ((joinComma (b.elements.map encodeElement)).data ++
          ']' :: '\x7d' :: rest))))) =
      (encodeStrList b.modifiers).data ++
      (',' :: '"' :: (['e', 'l', 'e', 'm', 'e', 'n', 't', 's'] ++ '"' :: ':' ::
        ('[' :: ((joinComma (b.elements.map encodeElement)).data ++
          ']' :: '\x7d' :: rest)))) from
    skipJWs_noop (by
      rw [show (encodeStrList b.modifiers).data ++
          (',' :: '"' :: (['e', 'l', 'e', 'm', 'e', 'n', 't', 's'] ++ '"' :: ':' ::
            ('[' :: ((joinComma (b.elements.map encodeElement)).data ++
              ']' :: '\x7d' :: rest)))) =
          '[' :: ((joinComma (b.modifiers.map encodeString)).data ++ ']' ::
            (',' :: '"' :: (['e', 'l', 'e', 'm', 'e', 'n', 't', 's'] ++ '"' :: ':' ::
              ('[' :: ((joinComma (b.elements.map encodeElement)).data ++
                ']' :: '\x7d' :: rest))))) from by simp [encodeStrList]]
      simp only [headNotP]; decide)]
  rw [parseValue_strList b.modifiers f3 _ (by omega)]
  show parseObjTail f3 [(String.mk ['m', 'o', 'd', 'i', 'f', 'i', 'e', 'r', 's'],
      Json.arr (b.modifiers.map Json.str)), (String.mk ['n', 'a', 'm', 'e'], Json.str b.name)]
      (skipJWs (',' :: '"' :: (['e', 'l', 'e', 'm', 'e', 'n', 't', 's'] ++ '"' :: ':' ::
        ('[' :: ((joinComma (b.elements.map encodeElement)).data ++
          ']' :: '\x7d' :: rest))))) = _
  rw [skipJWs_cons_noop (by decide)]
  obtain ⟨f4, rfl⟩ : ∃ f4, f3 = f4 + 1 := ⟨f3 - 1, by omega⟩
  rw [parseObjTail_key f4 _ ['e', 'l', 'e', 'm', 'e', 'n', 't', 's'] (by decide) _]
  rw [skipJWs_cons_noop (by decide : isJWs '[' = false)]
  rw [parseValue_elemArr b.elements f4 _ (by omega)]
  show parseObjTail f4 [(String.mk ['e', 'l', 'e', 'm', 'e', 'n', 't', 's'],
      Json.arr (b.elements.map jsonOfElement)),
      (String.mk ['m', 'o', 'd', 'i', 'f', 'i', 'e', 'r', 's'], Json.arr (b.modifiers.map Json.str)),
      (String.mk ['n', 'a', 'm', 'e'], Json.str b.name)] (skipJWs ('\x7d' :: rest)) = _
  rw [skipJWs_cons_noop (by decide)]
  obtain ⟨f5, rfl⟩ : ∃ f5, f4 = f5 + 1 := ⟨f4 - 1, by omega⟩
  rw [parseObjTail_close]
  rfl

theorem len_encodeString (s : String) : 2 ≤ (encodeString s).data.length := by
  simp [encodeString]

theorem len_joinCommaTail_str (ms : List String) :
    ms.length ≤ (joinCommaTail (ms.map encodeString)).data.length := by
  induction ms with
  | nil => simp [joinCommaTail]
  | cons m ms ih =>
    have h := len_encodeString m
    simp only [List.map_cons, joinCommaTail, String.data_append, List.length_append]
    simp only [List.length_cons] at *
    omega

theorem len_encodeStrList (ms : List String) :
    ms.length + 2 ≤ (encodeStrList ms).data.length := by
  cases ms with
  | nil => simp [encodeStrList, joinComma]
  | cons m ms =>
    have h1 := len_encodeString m
    have h2 := len_joinCommaTail_str ms
    simp only [encodeStrList, List.map_cons, joinComma_cons, String.data_append,
      List.length_append, List.length_cons]
    simp only [List.length_cons] at *
    omega

theorem len_encodeElement (e : BEMElement) :
    e.modifiers.length + 7 ≤ (encodeElement e).data.length := by
  have h1 := len_encodeString e.name
  have h2 := len_encodeStrList e.modifiers
  simp only [encodeElement, String.data_append, List.length_append]
  simp only [List.length_cons, List.length_nil]
  omega

theorem len_joinCommaTail_elem (es : List BEMElement) :
    elemsCost es ≤ (joinCommaTail (es.map encodeElement)).data.length := by
  induction es with
  | nil => simp [joinCommaTail, elemsCost]
  | cons e es ih =>
    have h := len_encodeElement e
    simp only [List.map_cons, joinCommaTail, String.data_append, List.length_append,
      elemsCost, List.length_cons]
    omega

theorem len_joinComma_elem (es : List BEMElement) :
    elemsCost es ≤ (joinComma (es.map encodeElement)).data.length := by
  cases es with
  | nil => simp [joinComma, elemsCost]
  | cons e es =>
    have h1 := len_encodeElement e
    have h2 := len_joinCommaTail_elem es
    simp only [List.map_cons, joinComma_cons, String.data_append, List.length_append,
      elemsCost]
    omega

theorem len_encodeBlock (b : BEMBlock) :
    b.modifiers.length + elemsCost b.elements + 10 ≤ (encodeBlock b).data.length + 1 := by
  have h1 := len_encodeString b.name
  have h2 := len_encodeStrList b.modifiers
  have h3 := len_joinComma_elem b.elements
  simp only [encodeBlock, String.data_append, List.length_append]
  simp only [List.length_cons, List.length_nil]
  have h4 : ("\x7b\"name\":" : String).data.length = 8 := rfl
  have h5 : (",\"modifiers\":" : String).data.length = 13 := rfl
  have h6 : (",\"elements\":[" : String).data.length = 13 := rfl
  have h7 : ("]\x7d" : String).data.length = 2 := rfl
  omega

theorem parseJsonText_encodeBlock (b : BEMBlock) :
    parseJsonText (encodeBlock b) = .ok (jsonOfBlock b) := by
  show (match parseValue ((encodeBlock b).data.length + 1) (skipJWs (encodeBlock b).data) with
        | none => (Except.error "JSON syntax error" : Except String Json)
        | some (v, rest) =>
          match skipJWs rest with
          | [] => .ok v
          | _ => .error "trailing characters") = _
  rw [show skipJWs (encodeBlock b).data = (encodeBlock b).data from
    skipJWs_noop (by
      rw [show (encodeBlock b).data = (encodeBlock b).data ++ [] from by simp,
        encodeBlock_data_decomp]
      simp only [headNotP]; decide)]
  rw [show (encodeBlock b).data = (encodeBlock b).data ++ [] from by simp]
  rw [parseValue_block b _ [] (by
    have := len_encodeBlock b
    simp only [List.append_nil, List.length_append]
    omega)]
  rfl

theorem strListAux_map (ms : List String) : strListAux (ms.map .str) = .ok ms := by
  induction ms with
  | nil => rfl
  | cons m ms ih => simp [strListAux, strFromJson, ih]

theorem elemFromJson_jsonOf (e : BEMElement) : elemFromJson (jsonOfElement e) = .ok e := by
  show elemFromKvs [("name", .str e.name), ("modifiers", .arr (e.modifiers.map .str))]
      none none = .ok e
  rw [show elemFromKvs [("name", .str e.name), ("modifiers", .arr (e.modifiers.map .str))]
      none none = elemFromKvs [("modifiers", .arr (e.modifiers.map .str))] (some e.name) none
    from by simp [elemFromKvs, strFromJson]]
  rw [show elemFromKvs [("modifiers", .arr (e.modifiers.map .str))] (some e.name) none =
      (match strListFromJson (.arr (e.modifiers.map .str)) with
       | .error err => .error err
       | .ok ms => elemFromKvs [] (some e.name) (some ms)) from by
    simp [elemFromKvs]]
  rw [show strListFromJson (.arr (e.modifiers.map .str)) = strListAux (e.modifiers.map .str)
    from rfl]
  rw [strListAux_map]
  rfl

theorem elemListAux_map (es : List BEMElement) :
    elemListAux (es.map jsonOfElement) = .ok es := by
  induction es with
  | nil => rfl
  | cons e es ih => simp [elemListAux, elemFromJson_jsonOf, ih]

theorem from_json_encodeBlock (b : BEMBlock) : from_json (encodeBlock b) = .ok b := by
  show (match parseJsonText (encodeBlock b) with
        | .error e => (Except.error e : Except String BEMBlock)
        | .ok j =>
          match j with
          | .obj kvs => blockFromKvs kvs none none none
          | _ => .error "invalid type: expected struct BEMBlock") = _
  rw [parseJsonText_encodeBlock]
  show blockFromKvs [("name", .str b.name), ("modifiers", .arr (b.modifiers.map .str)),
      ("elements", .arr (b.elements.map jsonOfElement))] none none none = .ok b
  rw [show blockFromKvs [("name", .str b.name), ("modifiers", .arr (b.modifiers.map .str)),
      ("elements", .arr (b.elements.map jsonOfElement))] none none none =
      blockFromKvs [("modifiers", .arr (b.modifiers.map .str)),
        ("elements", .arr (b.elements.map jsonOfElement))] (some b.name) none none from by
    simp [blockFromKvs, strFromJson]]
  rw [show blockFromKvs [("modifiers", .arr (b.modifiers.map .str)),
      ("elements", .arr (b.elements.map jsonOfElement))] (some b.name) none none =
      (match strListFromJson (.arr (b.modifiers.map .str)) with
       | .error err => .error err
       | .ok ms => blockFromKvs [("elements", .arr (b.elements.map jsonOfElement))]
           (some b.name) (some ms) none) from by simp [blockFromKvs]]
  rw [show strListFromJson (.arr (b.modifiers.map .str)) = strListAux (b.modifiers.map .str)
    from rfl]
  rw [strListAux_map]
  show blockFromKvs [("elements", .arr (b.elements.map jsonOfElement))]
      (some b.name) (some b.modifiers) none = .ok b
  rw [show blockFromKvs [("elements", .arr (b.elements.map jsonOfElement))]
      (some b.name) (some b.modifiers) none =
      (match elemListFromJson (.arr (b.elements.map jsonOfElement)) with
       | .error err => .error err
       | .ok es => blockFromKvs [] (some b.name) (some b.modifiers) (some es)) from by
    simp [blockFromKvs]]
  rw [show elemListFromJson (.arr (b.elements.map jsonOfElement)) =
      elemListAux (b.elements.map jsonOfElement) from rfl]
  rw [elemListAux_map]
  rfl

/-- Claim C1: for every Block value producible by `parse`, deserializing
the serialization reproduces it exactly — `from_json (to_json b) = b`,
equal in every field, preserving modifier and element order and exact
string content with no normalization. -/
theorem c1_round_trip (s : String) (b : BEMBlock) (h : parse s = .ok b)
    (t : String) (ht : to_json b = .ok t) : from_json t = .ok b := by
  simp only [to_json, Except.ok.injEq] at ht
  subst ht
  exact from_json_encodeBlock b

theorem c1_round_trip_witness :
    from_json (encodeBlock (BEMBlock.mk "foo" ["bar"] [])) =
      .ok (BEMBlock.mk "foo" ["bar"] []) :=
  c1_round_trip "foo[bar]" (BEMBlock.mk "foo" ["bar"] []) rfl
    (encodeBlock (BEMBlock.mk "foo" ["bar"] [])) rfl

/-- Claim C2: in every accepted document the first line populates the
block's name and modifiers, every subsequent non-blank line contributes
exactly one element in source order, and trailing blank lines contribute
no element.  Stated over rendered documents: a block line, one line per
element, and `k` trailing newlines; instances include
`parse "foo\nbar\nbaz"` and `parse "foo\n\n\n"`. -/
theorem c2_document_lines (b : String × List String)
    (es : List (String × List String)) (k : Nat)
    (hb : validLineB b = true) (hes : es.all validLineB = true) :
    parse (String.mk (renderDocChars b es k)) =
      .ok (BEMBlock.mk b.1 b.2 (es.map (fun e => BEMElement.mk e.1 e.2))) :=
  parse_render b es k hb (by simpa [List.all_eq_true] using hes)

theorem c2_document_lines_witness :
    parse (String.mk (renderDocChars ("foo", []) [("bar", []), ("baz", [])] 0)) =
      .ok (BEMBlock.mk "foo" [] [BEMElement.mk "bar" [], BEMElement.mk "baz" []]) ∧
    parse (String.mk (renderDocChars ("foo", []) [] 3)) =
      .ok (BEMBlock.mk "foo" [] []) :=
  ⟨c2_document_lines ("foo", []) [("bar", []), ("baz", [])] 0 (by decide) (by decide),
   c2_document_lines ("foo", []) [] 3 (by decide) (by decide)⟩

/-- Claim C3: `parse "foo[bar,baz]"` succeeds and returns exactly the
block named `foo` with modifiers `["bar", "baz"]` in left-to-right input
order and no elements. -/
theorem c3_modifier_order :
    parse "foo[bar,baz]" = .ok (BEMBlock.mk "foo" ["bar", "baz"] []) := rfl

/-- Claim C4: a trailing comma before the closing bracket is accepted and
produces no empty modifier entry. -/
theorem c4_trailing_comma :
    parse "foo[bar,baz,]" = .ok (BEMBlock.mk "foo" ["bar", "baz"] []) := rfl

/-- Claim C5: whitespace around each modifier inside the brackets is
stripped from the stored modifier strings. -/
theorem c5_modifier_whitespace :
    parse "foo[ bar , baz ]" = .ok (BEMBlock.mk "foo" ["bar", "baz"] []) := rfl

/-- Claim C6: parentheses as modifier-list delimiters are rejected —
`parse "foo(bar)"` (and the element-line variant) returns an error — and
no partial or best-effort block is ever returned: every `parse` result is
either a complete ok value or an error carrying only the description. -/
theorem c6_parentheses_rejected :
    (∃ e, parse "foo(bar)" = .error e) ∧
    (∃ e, parse "foo\nbar(baz,qux)" = .error e) ∧
    ∀ s : String, (∃ b, parse s = .ok b) ∨ (∃ e, parse s = .error e) := by
  refine ⟨⟨"Pest parsing error", rfl⟩, ⟨"Pest parsing error", rfl⟩, fun s => ?_⟩
  cases parse s with
  | ok b => exact Or.inl ⟨b, rfl⟩
  | error e => exact Or.inr ⟨e, rfl⟩

/-- Claim C7: for every `BEMBlock`, the text `to_json` renders parses (by
an independent JSON grammar) to a single JSON object whose fields appear
in exactly the order `name`, `modifiers` (model order), `elements` (each
element an object with `name` then `modifiers`), with no added, missing
or reordered fields. -/
theorem c7_field_order (b : BEMBlock) (t : String) (ht : to_json b = .ok t) :
    parseJsonText t = .ok (jsonOfBlock b) := by
  simp only [to_json, Except.ok.injEq] at ht
  subst ht
  exact parseJsonText_encodeBlock b

theorem c7_field_order_witness :
    parseJsonText (encodeBlock (BEMBlock.mk "media-player" ["dark"]
      [BEMElement.mk "button" ["fast-forward", "rewind"], BEMElement.mk "timeline" []])) =
    .ok (jsonOfBlock (BEMBlock.mk "media-player" ["dark"]
      [BEMElement.mk "button" ["fast-forward", "rewind"], BEMElement.mk "timeline" []])) :=
  c7_field_order (BEMBlock.mk "media-player" ["dark"]
    [BEMElement.mk "button" ["fast-forward", "rewind"], BEMElement.mk "timeline" []]) _ rfl

theorem from_json_syntax_error (s : String) (e : String)
    (hp : parseJsonText s = .error e) : from_json s = .error e := by
  show (match parseJsonText s with
        | .error e' => (Except.error e' : Except String BEMBlock)
        | .ok j =>
          match j with
          | .obj kvs => blockFromKvs kvs none none none
          | _ => .error "invalid type: expected struct BEMBlock") = _
  rw [hp]

theorem from_json_obj (s : String) (kvs : List (String × Json))
    (hp : parseJsonText s = .ok (.obj kvs)) :
    from_json s = blockFromKvs kvs none none none := by
  show (match parseJsonText s with
        | .error e' => (Except.error e' : Except String BEMBlock)
        | .ok j =>
          match j with
          | .obj kvs' => blockFromKvs kvs' none none none
          | _ => .error "invalid type: expected struct BEMBlock") = _
  rw [hp]

theorem blockFromKvs_missing_name :
    ∀ (kvs : List (String × Json)) (m : Option (List String))
      (e : Option (List BEMElement)),
      (∀ p ∈ kvs, p.1 ≠ "name") →
      ∃ err, blockFromKvs kvs none m e = .error err := by
  intro kvs
  induction kvs with
  | nil =>
    intro m e _
    exact ⟨"missing field `name`", rfl⟩
  | cons q kvs ih =>
    intro m e hk
    obtain ⟨k, v⟩ := q
    have hkn : k ≠ "name" := by simpa using hk (k, v) (by simp)
    have hrest : ∀ p ∈ kvs, p.1 ≠ "name" := fun p hp => hk p (by simp [hp])
    by_cases hkm : k = "modifiers"
    · subst hkm
      cases m with
      | some ms => exact ⟨"duplicate field `modifiers`", by simp [blockFromKvs, hkn]⟩
      | none =>
        cases hsl : strListFromJson v with
        | error er => exact ⟨er, by simp [blockFromKvs, hkn, hsl]⟩
        | ok ms =>
          obtain ⟨err, herr⟩ := ih (some ms) e hrest
          exact ⟨err, by simp [blockFromKvs, hkn, hsl, herr]⟩
    · by_cases hke : k = "elements"
      · subst hke
        cases e with
        | some es => exact ⟨"duplicate field `elements`", by simp [blockFromKvs, hkn]⟩
        | none =>
          cases hel : elemListFromJson v with
          | error er => exact ⟨er, by simp [blockFromKvs, hkn, hel]⟩
          | ok es =>
            obtain ⟨err, herr⟩ := ih m (some es) hrest
            exact ⟨err, by simp [blockFromKvs, hkn, hel, herr]⟩
      · obtain ⟨err, herr⟩ := ih m e hrest
        exact ⟨err, by simp [blockFromKvs, hkn, hkm, hke, herr]⟩

theorem blockFromKvs_missing_modifiers :
    ∀ (kvs : List (String × Json)) (n : Option String)
      (e : Option (List BEMElement)),
      (∀ p ∈ kvs, p.1 ≠ "modifiers") →
      ∃ err, blockFromKvs kvs n none e = .error err := by
  intro kvs
  induction kvs with
  | nil =>
    intro n e _
    cases n with
    | none => exact ⟨"missing field `name`", rfl⟩
    | some nm => exact ⟨"missing field `modifiers`", rfl⟩
  | cons q kvs ih =>
    intro n e hk
    obtain ⟨k, v⟩ := q
    have hkm : k ≠ "modifiers" := by simpa using hk (k, v) (by simp)
    have hrest : ∀ p ∈ kvs, p.1 ≠ "modifiers" := fun p hp => hk p (by simp [hp])
    by_cases hkn : k = "name"
    · subst hkn
      cases n with
      | some nm => exact ⟨"duplicate field `name`", by simp [blockFromKvs]⟩
      | none =>
        cases hs : strFromJson v with
        | error er => exact ⟨er, by simp [blockFromKvs, hs]⟩
        | ok s' =>
          obtain ⟨err, herr⟩ := ih (some s') e hrest
          exact ⟨err, by simp [blockFromKvs, hs, herr]⟩
    · by_cases hke : k = "elements"
      · subst hke
        cases e with
        | some es => exact ⟨"duplicate field `elements`", by simp [blockFromKvs, hkn]⟩
        | none =>
          cases hel : elemListFromJson v with
          | error er => exact ⟨er, by simp [blockFromKvs, hkn, hel]⟩
          | ok es =>
            obtain ⟨err, herr⟩ := ih n (some es) hrest
            exact ⟨err, by simp [blockFromKvs, hkn, hel, herr]⟩
      · obtain ⟨err, herr⟩ := ih n e hrest
        exact ⟨err, by simp [blockFromKvs, hkn, hkm, hke, herr]⟩

theorem blockFromKvs_missing_elements :
    ∀ (kvs : List (String × Json)) (n : Option String) (m : Option (List String)),
      (∀ p ∈ kvs, p.1 ≠ "elements") →
      ∃ err, blockFromKvs kvs n m none = .error err := by
  intro kvs
  induction kvs with
  | nil =>
    intro n m _
    cases n with
    | none => exact ⟨"missing field `name`", rfl⟩
    | some nm =>
      cases m with
      | none => exact ⟨"missing field `modifiers`", rfl⟩
      | some ms => exact ⟨"missing field `elements`", rfl⟩
  | cons q kvs ih =>
    intro n m hk
    obtain ⟨k, v⟩ := q
    have hke : k ≠ "elements" := by simpa using hk (k, v) (by simp)
    have hrest : ∀ p ∈ kvs, p.1 ≠ "elements" := fun p hp => hk p (by simp [hp])
    by_cases hkn : k = "name"
    · subst hkn
      cases n with
      | some nm => exact ⟨"duplicate field `name`", by simp [blockFromKvs]⟩
      | none =>
        cases hs : strFromJson v with
        | error er => exact ⟨er, by simp [blockFromKvs, hs]⟩
        | ok s' =>
          obtain ⟨err, herr⟩ := ih (some s') m hrest
          exact ⟨err, by simp [blockFromKvs, hs, herr]⟩
    · by_cases hkm : k = "modifiers"
      · subst hkm
        cases m with
        | some ms => exact ⟨"duplicate field `modifiers`", by simp [blockFromKvs, hkn]⟩
        | none =>
          cases hsl : strListFromJson v with
          | error er => exact ⟨er, by simp [blockFromKvs, hkn, hsl]⟩
          | ok ms =>
            obtain ⟨err, herr⟩ := ih n (some ms) hrest
            exact ⟨err, by simp [blockFromKvs, hkn, hsl, herr]⟩
      · obtain ⟨err, herr⟩ := ih n m hrest
        exact ⟨err, by simp [blockFromKvs, hkn, hkm, hke, herr]⟩

theorem elemFromKvs_missing_name :
    ∀ (ekvs : List (String × Json)) (m : Option (List String)),
      (∀ p ∈ ekvs, p.1 ≠ "name") →
      ∃ err, elemFromKvs ekvs none m = .error err := by
  intro ekvs
  induction ekvs with
  | nil =>
    intro m _
    exact ⟨"missing field `name`", rfl⟩
  | cons q ekvs ih =>
    intro m hk
    obtain ⟨k, v⟩ := q
    have hkn : k ≠ "name" := by simpa using hk (k, v) (by simp)
    have hrest : ∀ p ∈ ekvs, p.1 ≠ "name" := fun p hp => hk p (by simp [hp])
    by_cases hkm : k = "modifiers"
    · subst hkm
      cases m with
      | some ms => exact ⟨"duplicate field `modifiers`", by simp [elemFromKvs, hkn]⟩
      | none =>
        cases hsl : strListFromJson v with
        | error er => exact ⟨er, by simp [elemFromKvs, hkn, hsl]⟩
        | ok ms =>
          obtain ⟨err, herr⟩ := ih (some ms) hrest
          exact ⟨err, by simp [elemFromKvs, hkn, hsl, herr]⟩
    · obtain ⟨err, herr⟩ := ih m hrest
      exact ⟨err, by simp [elemFromKvs, hkn, hkm, herr]⟩

theorem elemFromKvs_missing_modifiers :
    ∀ (ekvs : List (String × Json)) (n : Option String),
      (∀ p ∈ ekvs, p.1 ≠ "modifiers") →
      ∃ err, elemFromKvs ekvs n none = .error err := by
  intro ekvs
  induction ekvs with
  | nil =>
    intro n _
    cases n with
    | none => exact ⟨"missing field `name`", rfl⟩
    | some nm => exact ⟨"missing field `modifiers`", rfl⟩
  | cons q ekvs ih =>
    intro n hk
    obtain ⟨k, v⟩ := q
    have hkm : k ≠ "modifiers" := by simpa using hk (k, v) (by simp)
    have hrest : ∀ p ∈ ekvs, p.1 ≠ "modifiers" := fun p hp => hk p (by simp [hp])
    by_cases hkn : k = "name"
    · subst hkn
      cases n with
      | some nm => exact ⟨"duplicate field `name`", by simp [elemFromKvs]⟩
      | none =>
        cases hs : strFromJson v with
        | error er => exact ⟨er, by simp [elemFromKvs, hs]⟩
        | ok s' =>
          obtain ⟨err, herr⟩ := ih (some s') hrest
          exact ⟨err, by simp [elemFromKvs, hs, herr]⟩
    · obtain ⟨err, herr⟩ := ih n hrest
      exact ⟨err, by simp [elemFromKvs, hkn, hkm, herr]⟩

theorem blockFromKvs_ok_elements :
    ∀ (kvs : List (String × Json)) (n : Option String) (m : Option (List String))
      (e : Option (List BEMElement)) (b : BEMBlock),
      blockFromKvs kvs n m e = .ok b →
      ∀ p ∈ kvs, p.1 = "elements" → ∃ es', elemListFromJson p.2 = .ok es' := by
  intro kvs
  induction kvs with
  | nil => intro n m e b _ p hp; exact absurd hp (List.not_mem_nil p)
  | cons q kvs ih =>
    intro n m e b h p hp hpk
    obtain ⟨k, v⟩ := q
    simp only [blockFromKvs] at h
    by_cases hk1 : k = "name"
    · rw [if_pos hk1] at h
      split at h
      · exact absurd h (by simp)
      · split at h
        · exact absurd h (by simp)
        · rcases List.mem_cons.mp hp with hpe | hpm
          · exfalso
            subst hpe
            simp only at hpk
            exact absurd (hk1.symm.trans hpk) (by decide)
          · exact ih _ _ _ _ h p hpm hpk
    · rw [if_neg hk1] at h
      by_cases hk2 : k = "modifiers"
      · rw [if_pos hk2] at h
        split at h
        · exact absurd h (by simp)
        · split at h
          · exact absurd h (by simp)
          · rcases List.mem_cons.mp hp with hpe | hpm
            · exfalso
              subst hpe
              simp only at hpk
              exact absurd (hk2.symm.trans hpk) (by decide)
            · exact ih _ _ _ _ h p hpm hpk
      · rw [if_neg hk2] at h
        by_cases hk3 : k = "elements"
        · rw [if_pos hk3] at h
          split at h
          · exact absurd h (by simp)
          · split at h
            · exact absurd h (by simp)
            · rename_i es hes
              rcases List.mem_cons.mp hp with hpe | hpm
              · subst hpe
                exact ⟨es, hes⟩
              · exact ih _ _ _ _ h p hpm hpk
        · rw [if_neg hk3] at h
          rcases List.mem_cons.mp hp with hpe | hpm
          · exfalso
            subst hpe
            simp only at hpk
            exact absurd hpk hk3
          · exact ih _ _ _ _ h p hpm hpk

theorem elemListAux_ok_mem :
    ∀ (vs : List Json) (es' : List BEMElement), elemListAux vs = .ok es' →
      ∀ v ∈ vs, ∃ ev, elemFromJson v = .ok ev := by
  intro vs
  induction vs with
  | nil => intro es' _ v hv; exact absurd hv (List.not_mem_nil v)
  | cons w vs ih =>
    intro es' h v hv
    simp only [elemListAux] at h
    split at h
    · exact absurd h (by simp)
    · rename_i x hx
      split at h
      · exact absurd h (by simp)
      · rename_i xs hxs
        rcases List.mem_cons.mp hv with hve | hvm
        · subst hve
          exact ⟨x, hx⟩
        · exact ih xs hxs v hvm

/-- Claim C8: `from_json` fails with an error on any JSON text that is
syntactically malformed, and on any JSON text whose parsed object is
missing one of the required fields — `name`, `modifiers` or `elements`
at the block level, or `name`/`modifiers` in an element of the
`elements` array — with the missing field identified in the error
(shown exactly for every enumerated position); and JSON text carrying
extra unrecognized fields alongside the required ones still
deserializes successfully with the required fields' values uncorrupted
(shown on a concrete text and for an arbitrary extra member). -/
theorem c8_deserialize_errors :
    (∀ (s : String) (e : String), parseJsonText s = .error e → from_json s = .error e) ∧
    (∀ (s : String) (kvs : List (String × Json)), parseJsonText s = .ok (.obj kvs) →
      (∀ p ∈ kvs, p.1 ≠ "name") → ∃ e, from_json s = .error e) ∧
    (∀ (s : String) (kvs : List (String × Json)), parseJsonText s = .ok (.obj kvs) →
      (∀ p ∈ kvs, p.1 ≠ "modifiers") → ∃ e, from_json s = .error e) ∧
    (∀ (s : String) (kvs : List (String × Json)), parseJsonText s = .ok (.obj kvs) →
      (∀ p ∈ kvs, p.1 ≠ "elements") → ∃ e, from_json s = .error e) ∧
    (∀ (s : String) (kvs : List (String × Json)) (vs : List Json)
        (ekvs : List (String × Json)), parseJsonText s = .ok (.obj kvs) →
      ("elements", Json.arr vs) ∈ kvs → Json.obj ekvs ∈ vs →
      (∀ p ∈ ekvs, p.1 ≠ "name") → ∃ e, from_json s = .error e) ∧
    (∀ (s : String) (kvs : List (String × Json)) (vs : List Json)
        (ekvs : List (String × Json)), parseJsonText s = .ok (.obj kvs) →
      ("elements", Json.arr vs) ∈ kvs → Json.obj ekvs ∈ vs →
      (∀ p ∈ ekvs, p.1 ≠ "modifiers") → ∃ e, from_json s = .error e) ∧
    (∃ e, from_json "\x7b" = .error e) ∧
    from_json "\x7b\"modifiers\":[],\"elements\":[]\x7d" = .error "missing field `name`" ∧
    from_json "\x7b\"name\":\"a\",\"elements\":[]\x7d" = .error "missing field `modifiers`" ∧
    from_json "\x7b\"name\":\"a\",\"modifiers\":[]\x7d" = .error "missing field `elements`" ∧
    from_json "\x7b\"name\":\"a\",\"modifiers\":[],\"elements\":[\x7b\"modifiers\":[]\x7d]\x7d" =
      .error "missing field `name`" ∧
    from_json "\x7b\"name\":\"a\",\"modifiers\":[],\"elements\":[\x7b\"name\":\"x\"\x7d]\x7d" =
      .error "missing field `modifiers`" ∧
    from_json
      "\x7b\"name\":\"a\",\"extra\":[1.5e3,null,true,\"x\"],\"modifiers\":[],\"elements\":[]\x7d" =
      .ok (BEMBlock.mk "a" [] []) ∧
    ∀ (k : String) (v : Json), k ≠ "name" → k ≠ "modifiers" → k ≠ "elements" →
      blockFromKvs [("name", .str "a"), (k, v), ("modifiers", .arr []), ("elements", .arr [])]
        none none none = .ok (BEMBlock.mk "a" [] []) := by
  refine ⟨fun s e hp => from_json_syntax_error s e hp, ?_, ?_, ?_, ?_, ?_,
    ⟨_, rfl⟩, rfl, rfl, rfl, rfl, rfl, rfl, ?_⟩
  · intro s kvs hp hkeys
    obtain ⟨err, herr⟩ := blockFromKvs_missing_name kvs none none hkeys
    exact ⟨err, by rw [from_json_obj s kvs hp]; exact herr⟩
  · intro s kvs hp hkeys
    obtain ⟨err, herr⟩ := blockFromKvs_missing_modifiers kvs none none hkeys
    exact ⟨err, by rw [from_json_obj s kvs hp]; exact herr⟩
  · intro s kvs hp hkeys
    obtain ⟨err, herr⟩ := blockFromKvs_missing_elements kvs none none hkeys
    exact ⟨err, by rw [from_json_obj s kvs hp]; exact herr⟩
  · intro s kvs vs ekvs hp hmem hvm hkeys
    cases hb : blockFromKvs kvs none none none with
    | error er => exact ⟨er, by rw [from_json_obj s kvs hp]; exact hb⟩
    | ok b =>
      exfalso
      obtain ⟨es', hes'⟩ := blockFromKvs_ok_elements kvs none none none b hb
        ("elements", Json.arr vs) hmem rfl
      have hla : elemListAux vs = .ok es' := hes'
      obtain ⟨ev, hev⟩ := elemListAux_ok_mem vs es' hla (Json.obj ekvs) hvm
      have hek : elemFromKvs ekvs none none = .ok ev := hev
      obtain ⟨err2, herr2⟩ := elemFromKvs_missing_name ekvs none hkeys
      rw [hek] at herr2
      exact absurd herr2 (by simp)
  · intro s kvs vs ekvs hp hmem hvm hkeys
    cases hb : blockFromKvs kvs none none none with
    | error er => exact ⟨er, by rw [from_json_obj s kvs hp]; exact hb⟩
    | ok b =>
      exfalso
      obtain ⟨es', hes'⟩ := blockFromKvs_ok_elements kvs none none none b hb
        ("elements", Json.arr vs) hmem rfl
      have hla : elemListAux vs = .ok es' := hes'
      obtain ⟨ev, hev⟩ := elemListAux_ok_mem vs es' hla (Json.obj ekvs) hvm
      have hek : elemFromKvs ekvs none none = .ok ev := hev
      obtain ⟨err2, herr2⟩ := elemFromKvs_missing_modifiers ekvs none hkeys
      rw [hek] at herr2
      exact absurd herr2 (by simp)
  · intro k v h1 h2 h3
    rw [show blockFromKvs [("name", Json.str "a"), (k, v), ("modifiers", Json.arr []),
        ("elements", Json.arr [])] none none none =
        blockFromKvs [(k, v), ("modifiers", Json.arr []), ("elements", Json.arr [])]
          (some "a") none none from rfl]
    rw [show blockFromKvs [(k, v), ("modifiers", Json.arr []), ("elements", Json.arr [])]
        (some "a") none none =
        blockFromKvs [("modifiers", Json.arr []), ("elements", Json.arr [])]
          (some "a") none none from by
      simp only [blockFromKvs]
      rw [if_neg h1, if_neg h2, if_neg h3]]
    rfl

theorem c8_deserialize_errors_witness :
    (∃ e, from_json "\x7b\"modifiers\":[],\"elements\":[]\x7d" = .error e) ∧
    blockFromKvs [("name", .str "a"), ("zzz", Json.null), ("modifiers", .arr []),
      ("elements", .arr [])] none none none = .ok (BEMBlock.mk "a" [] []) :=
  ⟨c8_deserialize_errors.2.1 "\x7b\"modifiers\":[],\"elements\":[]\x7d"
      [("modifiers", Json.arr []), ("elements", Json.arr [])] rfl (by decide),
   c8_deserialize_errors.2.2.2.2.2.2.2.2.2.2.2.2.2 "zzz" Json.null
     (by decide) (by decide) (by decide)⟩

/-- Claim C9 (counterexample): the claim also asserts the invariants for
blocks built by `from_json`, but `from_json` performs no identifier
validation: it accepts an empty name and an empty modifier string, so the
resulting block violates the model invariants. -/
theorem c9_invariants_counterexample :
    from_json "\x7b\"name\":\"\",\"modifiers\":[\"\"],\"elements\":[]\x7d" =
      .ok (BEMBlock.mk "" [""] []) ∧
    blockInvariantB (BEMBlock.mk "" [""] []) = false := ⟨rfl, rfl⟩

/-- Claim C9 (amended): every `BEMBlock` constructed by a successful
`parse` satisfies the model invariants — every name is a nonempty string
of identifier characters and no modifier list contains an empty string;
`from_json` enforces only the JSON shape, not these invariants. -/
theorem c9_parse_invariant (s : String) (b : BEMBlock) (h : parse s = .ok b) :
    blockInvariantB b = true :=
  parse_invariant h

theorem c9_parse_invariant_witness :
    blockInvariantB (BEMBlock.mk "foo" ["bar"] []) = true :=
  c9_parse_invariant "foo[bar]" (BEMBlock.mk "foo" ["bar"] []) rfl

/-- Claim C10: newline and tab whitespace between modifiers inside a
bracketed list is accepted, both on the block line and on an element
line. -/
theorem c10_newlines_tabs_in_brackets :
    parse "foo[\n\tbar,\n\tbaz]" = .ok (BEMBlock.mk "foo" ["bar", "baz"] []) ∧
    parse "foo\nbar[\n\tbaz,\n\tqux]" =
      .ok (BEMBlock.mk "foo" [] [BEMElement.mk "bar" ["baz", "qux"]]) := ⟨rfl, rfl⟩
